import Mathlib

/-!
Verification of the document-management-system (DMS) core: a shallow embedding
of the folder/document store, the folder and file repositories, the folder and
file services, and the unified `/api/files` listing route, together with proofs
of the specified properties (recursive cascade delete, cycle prevention,
validation rules, pagination and sort semantics, and the memoised service
singletons).

The store is modelled as two lists of rows (`folders`, `documents`), mirroring
the two SQL tables.  SQL statements issued by the repositories translate to
list operations: `where c = v` filters, `deleteFrom ... where` keeps the
non-matching rows, `updateTable ... set ... where id = i` maps a patch over the
rows, and inserts append a row whose id is one past the largest existing id
(auto-increment).  The recursive `remove` of the folder repository is embedded
with an explicit fuel parameter (the TypeScript recursion terminates on every
store the database can actually hold, i.e. acyclic ones; the fuel only serves
to make the function total in Lean), and every claim about it is proved for
fuel `folders.length + 1`, which is shown sufficient on well-formed stores.
-/

namespace DMS

/-- A row of the `folders` table (`Folder` in folderRepository). -/
structure Folder where
  id : Nat
  name : String
  parent_id : Option Nat
  created_by : String
  created_at : Nat
deriving Repr, DecidableEq

/-- A row of the `documents` table (`File` in fileRepository / `Document` in
documentRepository — the two interfaces are identical). -/
structure Document where
  id : Nat
  name : String
  type : String
  size : Int
  folder_id : Option Nat
  created_by : String
  created_at : Nat
deriving Repr, DecidableEq

/-- The relational store backing the system: the `folders` and `documents`
tables. -/
structure Store where
  folders : List Folder
  documents : List Document
deriving Repr, DecidableEq

/-- `CreateFolderDTO` of folderRepository. -/
structure CreateFolderDTO where
  name : String
  parent_id : Option Nat
  created_by : String
deriving Repr, DecidableEq

/-- `CreateFileDTO` of fileRepository (= `CreateDocumentDTO`). -/
structure CreateFileDTO where
  name : String
  type : String
  size : Int
  folder_id : Option Nat
  created_by : String
deriving Repr, DecidableEq

/-- A `Partial<CreateFolderDTO>`: each field is present or absent.  For
`parent_id` the inner option is the SQL NULL. -/
structure FolderPatch where
  name : Option String
  parent_id : Option (Option Nat)
  created_by : Option String
deriving Repr, DecidableEq

/-- A `Partial<CreateFileDTO>`. -/
structure FilePatch where
  name : Option String
  type : Option String
  size : Option Int
  folder_id : Option (Option Nat)
  created_by : Option String
deriving Repr, DecidableEq

/-- Fresh auto-increment id: one past the largest id present. -/
def nextId (ids : List Nat) : Nat := ids.foldr (fun a b => max a b) 0 + 1

/-! ## Folder repository (`createFolderRepository`) -/

/-- `findById(id)`: first row of `folders` with the given id, or null. -/
def folderFindById (s : Store) (id : Nat) : Option Folder :=
  s.folders.find? (fun f => f.id == id)

/-- `orderBy('created_at', 'desc')` on folders. -/
def sortFoldersByCreatedDesc (fs : List Folder) : List Folder :=
  fs.mergeSort (fun a b => b.created_at ≤ a.created_at)

/-- `findAll(parentId?)`: all folders, filtered by `parent_id` when the
argument is supplied (outer option = TypeScript `undefined`, inner option =
SQL NULL), newest first. -/
def folderFindAll (s : Store) (parentId : Option (Option Nat)) : List Folder :=
  match parentId with
  | none => sortFoldersByCreatedDesc s.folders
  | some p => sortFoldersByCreatedDesc (s.folders.filter (fun f => f.parent_id == p))

/-- `create(folder)`: insert a row with a fresh id and the current timestamp,
then read it back (`findById(insertId)`). -/
def folderRepoCreate (s : Store) (d : CreateFolderDTO) (now : Nat) :
    Option Folder × Store :=
  let newId := nextId (s.folders.map Folder.id)
  let f : Folder := ⟨newId, d.name, d.parent_id, d.created_by, now⟩
  let s' : Store := ⟨s.folders ++ [f], s.documents⟩
  (folderFindById s' newId, s')

/-- Apply a `Partial<CreateFolderDTO>` to a row (SQL `set data`). -/
def applyFolderPatch (p : FolderPatch) (f : Folder) : Folder :=
  ⟨f.id, p.name.getD f.name, p.parent_id.getD f.parent_id,
    p.created_by.getD f.created_by, f.created_at⟩

/-- `update(id, data)`: `updateTable('folders').set(data).where('id','=',id)`
followed by `findById(id)`. -/
def folderRepoUpdate (s : Store) (id : Nat) (p : FolderPatch) :
    Option Folder × Store :=
  let s' : Store :=
    ⟨s.folders.map (fun f => if f.id == id then applyFolderPatch p f else f),
      s.documents⟩
  (folderFindById s' id, s')

/-- A delete statement issued against the store during a recursive folder
removal: either `deleteFrom('documents').where('folder_id','=',i)` or
`deleteFrom('folders').where('id','=',i)`.  The trace of these events records
the order in which `remove` touches the store. -/
inductive DelEvent where
  | delDocsOfFolder (folderId : Nat)
  | delFolderRow (id : Nat)
deriving Repr, DecidableEq

mutual

/-- `remove(id)` of the folder repository, with explicit fuel: look the folder
up (null when absent), recursively remove each subfolder, delete the folder's
own documents, delete the folder row, return the pre-deletion snapshot.  Also
returns the trace of delete statements. -/
def removeAux (fuel : Nat) (s : Store) (id : Nat) :
    Option Folder × Store × List DelEvent :=
  match fuel with
  | 0 => (none, s, [])
  | Nat.succ fuel' =>
    match folderFindById s id with
    | none => (none, s, [])
    | some folder =>
      let subfolders := folderFindAll s (some (some id))
      let r := removeChildren fuel' s subfolders
      let s₂ : Store :=
        ⟨r.1.folders, r.1.documents.filter (fun d => d.folder_id != some id)⟩
      let s₃ : Store := ⟨s₂.folders.filter (fun f => f.id != id), s₂.documents⟩
      (some folder, s₃,
        r.2 ++ [DelEvent.delDocsOfFolder id, DelEvent.delFolderRow id])
termination_by (fuel, 0)

/-- The `for (const subfolder of subfolders) await this.remove(subfolder.id)`
loop of `remove`. -/
def removeChildren (fuel : Nat) (s : Store) (l : List Folder) :
    Store × List DelEvent :=
  match l with
  | [] => (s, [])
  | c :: rest =>
    let r := removeAux fuel s c.id
    let r' := removeChildren fuel r.2.1 rest
    (r'.1, r.2.2 ++ r'.2)
termination_by (fuel, l.length + 1)

end

/-- `remove(id)` run with enough fuel for any well-formed store. -/
def folderRemove (s : Store) (id : Nat) : Option Folder × Store × List DelEvent :=
  removeAux (s.folders.length + 1) s id

/-! ## getPath

`folderRepository.getPath` is called by the folder service (both for
`getFolderPath` and for the cycle check in `updateFolder`) but no
implementation of it appears anywhere in the repository sources — only its
callers do. -/

/-- Modelled from the spec: `getPath(id)` of the folder repository is missing
from the sources; per §4.1 it "walks `parent_id` links from the given folder up
to the root, returning the ordered ancestor chain (root first, target last);
empty sequence signals the folder does not exist".  Fuel makes the upward walk
total; `folders.length + 1` is enough on well-formed stores. -/
def getPathAux (fuel : Nat) (s : Store) (id : Nat) : List Folder :=
  match fuel with
  | 0 => []
  | Nat.succ fuel' =>
    match folderFindById s id with
    | none => []
    | some f =>
      match f.parent_id with
      | none => [f]
      | some p => getPathAux fuel' s p ++ [f]

/-- Modelled from the spec: `getPath(id)` (see `getPathAux`). -/
def getPath (s : Store) (id : Nat) : List Folder :=
  getPathAux (s.folders.length + 1) s id

/-! ## Folder service (`createFolderService` in folderService.ts) -/

/-- The guard `x !== undefined && x !== null && !(await findById(x))` used by
the services: the reference is supplied, non-null, and dangling. -/
def folderMissing (s : Store) (ref : Option (Option Nat)) : Bool :=
  match ref with
  | some (some fid) => (folderFindById s fid).isNone
  | _ => false

/-- The cycle-prevention guard of `updateFolder`: a supplied non-null new
parent whose ancestor path contains the target id. -/
def cycleGuard (s : Store) (id : Nat) (ref : Option (Option Nat)) : Bool :=
  match ref with
  | some (some pid) => (getPath s pid).any (fun f => f.id == id)
  | _ => false

/-- `createFolder`: when `parent_id` is non-null the parent must exist,
otherwise reject; then delegate to the repository. -/
def createFolder (s : Store) (d : CreateFolderDTO) (now : Nat) :
    Option Folder × Store :=
  if folderMissing s (some d.parent_id) then (none, s)
  else folderRepoCreate s d now

/-- `updateFolder`: the target must exist; when `parent_id` is being set to a
non-null value the new parent must exist and the target must not appear in the
new parent's ancestor path (cycle prevention); otherwise delegate to the
repository. -/
def updateFolder (s : Store) (id : Nat) (p : FolderPatch) :
    Option Folder × Store :=
  if (folderFindById s id).isNone then (none, s)
  else if folderMissing s p.parent_id then (none, s)
  else if cycleGuard s id p.parent_id then (none, s)
  else folderRepoUpdate s id p

/-- `deleteFolder`: pass-through to the repository's recursive `remove`. -/
def deleteFolder (s : Store) (id : Nat) : Option Folder × Store :=
  let r := folderRemove s id
  (r.1, r.2.1)

/-- `getFolderPath`: pass-through to the repository's `getPath`. -/
def getFolderPath (s : Store) (id : Nat) : List Folder :=
  getPath s id

/-! ## File repository (`createFileRepository` in fileRepository.ts) -/

/-- `findById(id)` on documents. -/
def fileFindById (s : Store) (id : Nat) : Option Document :=
  s.documents.find? (fun d => d.id == id)

/-- `findByIds(ids)`: empty input short-circuits without querying the store;
otherwise `where('id','in',ids)`. -/
def fileFindByIds (s : Store) (ids : List Nat) : List Document :=
  match ids with
  | [] => []
  | _ => s.documents.filter (fun d => ids.contains d.id)

/-- `create(file)`: insert with fresh id and current timestamp, read back. -/
def fileRepoCreate (s : Store) (d : CreateFileDTO) (now : Nat) :
    Option Document × Store :=
  let newId := nextId (s.documents.map Document.id)
  let row : Document :=
    ⟨newId, d.name, d.type, d.size, d.folder_id, d.created_by, now⟩
  let s' : Store := ⟨s.folders, s.documents ++ [row]⟩
  (fileFindById s' newId, s')

/-- Apply a `Partial<CreateFileDTO>` to a document row. -/
def applyFilePatch (p : FilePatch) (d : Document) : Document :=
  ⟨d.id, p.name.getD d.name, p.type.getD d.type, p.size.getD d.size,
    p.folder_id.getD d.folder_id, p.created_by.getD d.created_by, d.created_at⟩

/-- `update(id, data)` on documents. -/
def fileRepoUpdate (s : Store) (id : Nat) (p : FilePatch) :
    Option Document × Store :=
  let s' : Store :=
    ⟨s.folders,
      s.documents.map (fun d => if d.id == id then applyFilePatch p d else d)⟩
  (fileFindById s' id, s')

/-- `remove(id)` on documents: look up, delete the row, return the snapshot. -/
def fileRepoRemove (s : Store) (id : Nat) : Option Document × Store :=
  match fileFindById s id with
  | none => (none, s)
  | some d => (some d, ⟨s.folders, s.documents.filter (fun r => r.id != id)⟩)

/-- `set({folder_id: folderId})` applied to a document row. -/
def reassignTo (folderId : Option Nat) (d : Document) : Document :=
  ⟨d.id, d.name, d.type, d.size, folderId, d.created_by, d.created_at⟩

/-- `moveToFolder(ids, folderId)`: look the batch up; when nothing matches,
return empty without mutating; otherwise set `folder_id` for the batch and
return the post-move snapshot (`findByIds` again). -/
def moveToFolder (s : Store) (ids : List Nat) (folderId : Option Nat) :
    List Document × Store :=
  let files := fileFindByIds s ids
  match files with
  | [] => ([], s)
  | _ =>
    let s' : Store :=
      ⟨s.folders,
        s.documents.map (fun d =>
          if ids.contains d.id then reassignTo folderId d else d)⟩
    (fileFindByIds s' ids, s')

/-! ## File service (`createFileService` in fileService.ts) -/

/-- `createFile`: reject when the (non-null) target folder does not exist,
when `size` is negative, or when the trimmed `name` is empty; all checks run
before the insert. -/
def createFile (s : Store) (d : CreateFileDTO) (now : Nat) :
    Option Document × Store :=
  if folderMissing s (some d.folder_id) then (none, s)
  else if decide (d.size < 0) then (none, s)
  else if d.name.trim.isEmpty then (none, s)
  else fileRepoCreate s d now

/-- A negative `size` supplied in a patch. -/
def sizeBad (p : FilePatch) : Bool :=
  match p.size with
  | some z => decide (z < 0)
  | none => false

/-- An empty/whitespace-only `name` supplied in a patch. -/
def nameBad (p : FilePatch) : Bool :=
  match p.name with
  | some n => n.trim.isEmpty
  | none => false

/-- `updateFile`: the target must exist; a non-null `folder_id` in the patch
must resolve to an existing folder; a negative `size` or empty trimmed `name`
in the patch is rejected. -/
def updateFile (s : Store) (id : Nat) (p : FilePatch) :
    Option Document × Store :=
  if (fileFindById s id).isNone then (none, s)
  else if folderMissing s p.folder_id then (none, s)
  else if sizeBad p then (none, s)
  else if nameBad p then (none, s)
  else fileRepoUpdate s id p

/-- `moveFiles(ids, folderId)`: when the destination is non-null it must
exist, otherwise return empty without mutating; then delegate to
`moveToFolder`. -/
def moveFiles (s : Store) (ids : List Nat) (folderId : Option Nat) :
    List Document × Store :=
  if folderMissing s (some folderId) then ([], s)
  else moveToFolder s ids folderId

/-! ## Document repository and service (documentRepository.ts and the
documentService variant): `createDocument` delegates straight to the
repository with no validation at all. -/

/-- `create(document)` of documentRepository — same semantics as
`fileRepoCreate`. -/
def documentRepoCreate (s : Store) (d : CreateFileDTO) (now : Nat) :
    Option Document × Store :=
  fileRepoCreate s d now

/-- `createDocument` of the document service: no validation, direct insert. -/
def createDocument (s : Store) (d : CreateFileDTO) (now : Nat) :
    Option Document × Store :=
  documentRepoCreate s d now

/-! ## Module-level service singletons

`createFolderService` / `createDocumentService` memoise their result in a
module-level variable (`folderServiceInstance` / `documentServiceInstance`).
We model the module state as the optional cached instance; an instance is
identified by the database handle it captured at construction time.  The
constructor returns the instance it handed out together with the new module
state. -/

/-- An opaque database handle (`Kysely<Database>`), identified by key. -/
structure DB where
  key : Nat
deriving Repr, DecidableEq

/-- The folder service object: it closes over the database handle it was
constructed with. -/
structure FolderServiceInst where
  boundDb : DB
deriving Repr, DecidableEq

/-- The document service object. -/
structure DocumentServiceInst where
  boundDb : DB
deriving Repr, DecidableEq

/-- `createFolderService(db)`: return the cached instance when present
(ignoring `db`), otherwise construct one bound to `db` and cache it. -/
def createFolderService (state : Option FolderServiceInst) (db : DB) :
    FolderServiceInst × Option FolderServiceInst :=
  match state with
  | some inst => (inst, some inst)
  | none => (⟨db⟩, some ⟨db⟩)

/-- `resetFolderService()`: clear the cached instance. -/
def resetFolderService (_ : Option FolderServiceInst) :
    Option FolderServiceInst :=
  none

/-- `createDocumentService(db)`: same memoisation pattern. -/
def createDocumentService (state : Option DocumentServiceInst) (db : DB) :
    DocumentServiceInst × Option DocumentServiceInst :=
  match state with
  | some inst => (inst, some inst)
  | none => (⟨db⟩, some ⟨db⟩)

/-- `resetDocumentService()`. -/
def resetDocumentService (_ : Option DocumentServiceInst) :
    Option DocumentServiceInst :=
  none

/-- A sequence of `createFolderService` calls with the given `db` arguments,
threading the module state; returns the instances handed out and the final
state. -/
def folderServiceCalls (state : Option FolderServiceInst) (dbs : List DB) :
    List FolderServiceInst × Option FolderServiceInst :=
  match dbs with
  | [] => ([], state)
  | db :: rest =>
    let r := createFolderService state db
    let r' := folderServiceCalls r.2 rest
    (r.1 :: r'.1, r'.2)

/-- A sequence of `createDocumentService` calls. -/
def documentServiceCalls (state : Option DocumentServiceInst) (dbs : List DB) :
    List DocumentServiceInst × Option DocumentServiceInst :=
  match dbs with
  | [] => ([], state)
  | db :: rest =>
    let r := createDocumentService state db
    let r' := documentServiceCalls r.2 rest
    (r.1 :: r'.1, r'.2)

/-! ## The unified `GET /api/files` route (files.ts) -/

/-- Does `needle` occur at the head of `hay`? -/
def leadsWith : List Char → List Char → Bool
  | [], _ => true
  | _ :: _, [] => false
  | a :: as, b :: bs => a == b && leadsWith as bs

/-- Does `needle` occur anywhere in `hay`?  (SQL `like '%needle%'`, modelled
as case-sensitive substring match.) -/
def hasSub (needle : List Char) : List Char → Bool
  | [] => leadsWith needle []
  | c :: t => leadsWith needle (c :: t) || hasSub needle t

/-- Substring test on strings. -/
def strContains (hay needle : String) : Bool :=
  hasSub needle.toList hay.toList

/-- The `sort` query parameter. -/
inductive SortKey where
  | name
  | type
  | size
  | created_at
deriving Repr, DecidableEq

/-- The `order` query parameter. -/
inductive SortOrder where
  | asc
  | desc
deriving Repr, DecidableEq

/-- The raw (pre-validation) query string of `GET /api/files`, after zod
coercion of the numeric fields: absent fields are `none`. -/
structure RawFilesQuery where
  parent_id : Option Int
  page : Option Int
  limit : Option Int
  sort : Option SortKey
  order : Option SortOrder
  search : Option String
deriving Repr, DecidableEq

/-- The validated query: `page` positive (default 1), `limit` positive and at
most 100 (default 10), `sort` default `created_at`, `order` default `desc`. -/
structure FilesQuery where
  parent_id : Option Int
  page : Nat
  limit : Nat
  sort : SortKey
  order : SortOrder
  search : Option String
deriving Repr, DecidableEq

/-- `querySchema.safeParse`: apply defaults, reject non-positive `page` or
`limit` and `limit > 100` (the route answers 400 in that case, modelled as
`none`). -/
def parseFilesQuery (q : RawFilesQuery) : Option FilesQuery :=
  if q.page.getD 1 ≤ 0 then none
  else if q.limit.getD 10 ≤ 0 then none
  else if q.limit.getD 10 > 100 then none
  else
    some ⟨q.parent_id, (q.page.getD 1).toNat, (q.limit.getD 10).toNat,
      q.sort.getD SortKey.created_at, q.order.getD SortOrder.desc, q.search⟩

/-- JavaScript truthiness of the optional numeric `parent_id`:
`if (parent_id)` is false for an absent parameter and for `0`. -/
def parentTruthy : Option Int → Bool
  | none => false
  | some v => v != 0

/-- JavaScript truthiness of the optional `search` string: absent and empty
are falsy. -/
def searchTruthy : Option String → Bool
  | none => false
  | some t => !t.isEmpty

/-- Does a row's folder reference match the (truthy) `parent_id` filter? -/
def refMatches (r : Option Nat) (p : Int) : Bool :=
  match r with
  | some n => (n : Int) == p
  | none => false

/-- Is a row's folder reference at root level (`IS NULL OR = 0`)? -/
def refIsRoot (r : Option Nat) : Bool :=
  r == none || r == some 0

/-- The folders sub-query of the route: filter by `parent_id` (root level when
the parameter is falsy), then by the `search` term. -/
def selectFolders (s : Store) (parent_id : Option Int) (search : Option String) :
    List Folder :=
  let base :=
    if parentTruthy parent_id then
      s.folders.filter (fun f => refMatches f.parent_id (parent_id.getD 0))
    else
      s.folders.filter (fun f => refIsRoot f.parent_id)
  if searchTruthy search then
    base.filter (fun f => strContains f.name (search.getD ""))
  else base

/-- The documents sub-query of the route. -/
def selectDocuments (s : Store) (parent_id : Option Int) (search : Option String) :
    List Document :=
  let base :=
    if parentTruthy parent_id then
      s.documents.filter (fun d => refMatches d.folder_id (parent_id.getD 0))
    else
      s.documents.filter (fun d => refIsRoot d.folder_id)
  if searchTruthy search then
    base.filter (fun d => strContains d.name (search.getD ""))
  else base

/-- The polymorphic `File` view returned by the route: folders are projected
with `type = "folder"` and no size, documents with their own type and size. -/
structure UFile where
  id : Nat
  name : String
  type : String
  size : Option Int
  folder_id : Option Nat
  created_by : String
  created_at : Nat
deriving Repr, DecidableEq

/-- Projection of a folder row into the unified view. -/
def folderToUFile (f : Folder) : UFile :=
  ⟨f.id, f.name, "folder", none, f.parent_id, f.created_by, f.created_at⟩

/-- Projection of a document row into the unified view. -/
def documentToUFile (d : Document) : UFile :=
  ⟨d.id, d.name, d.type, some d.size, d.folder_id, d.created_by, d.created_at⟩

/-- The comparator used on the merged list, as a boolean `≤`: by the selected
key, in the selected direction; a missing size counts as 0; `localeCompare`
is modelled as lexicographic string order. -/
def fileLe (k : SortKey) (o : SortOrder) (a b : UFile) : Bool :=
  match k, o with
  | SortKey.name, SortOrder.asc => decide (a.name ≤ b.name)
  | SortKey.name, SortOrder.desc => decide (b.name ≤ a.name)
  | SortKey.type, SortOrder.asc => decide (a.type ≤ b.type)
  | SortKey.type, SortOrder.desc => decide (b.type ≤ a.type)
  | SortKey.size, SortOrder.asc => decide (a.size.getD 0 ≤ b.size.getD 0)
  | SortKey.size, SortOrder.desc => decide (b.size.getD 0 ≤ a.size.getD 0)
  | SortKey.created_at, SortOrder.asc => decide (a.created_at ≤ b.created_at)
  | SortKey.created_at, SortOrder.desc => decide (b.created_at ≤ a.created_at)

/-- The `allFiles.sort(...)` stage (stable sort by the comparator). -/
def sortFiles (k : SortKey) (o : SortOrder) (files : List UFile) : List UFile :=
  files.mergeSort (fileLe k o)

/-- The `pagination` object of the response. -/
structure Pagination where
  page : Nat
  limit : Nat
  total : Nat
  totalPages : Nat
deriving Repr, DecidableEq

/-- The response of `GET /api/files`. -/
structure FilesResponse where
  data : List UFile
  pagination : Pagination
deriving Repr, DecidableEq

/-- The merged (pre-sort) unified sequence for a query. -/
def mergedFiles (s : Store) (q : FilesQuery) : List UFile :=
  (selectFolders s q.parent_id q.search).map folderToUFile ++
    (selectDocuments s q.parent_id q.search).map documentToUFile

/-- The `GET /api/files` handler after query validation: select both tables,
merge, sort, compute `total`/`totalPages`, and slice
`[offset, offset + limit)` where `offset = (page-1)*limit`. -/
def listFiles (s : Store) (q : FilesQuery) : FilesResponse :=
  let offset := (q.page - 1) * q.limit
  let allFiles := mergedFiles s q
  let sorted := sortFiles q.sort q.order allFiles
  let total := allFiles.length
  let totalPages := (total + q.limit - 1) / q.limit
  let paginated := (sorted.drop offset).take q.limit
  ⟨paginated, ⟨q.page, q.limit, total, totalPages⟩⟩

/-! ## Well-formed stores

The database schema guarantees that `id` is a primary key and that
`parent_id` references `folders.id`; a store reachable through the API in
addition never contains a parent cycle.  We capture this. -/

/-- Length of the `parent_id` chain starting at `id` (counting the rows
visited), walking upward; `none` when the walk does not finish within
`fuel` steps. -/
def chainLen (fuel : Nat) (s : Store) (id : Nat) : Option Nat :=
  match fuel with
  | 0 => none
  | Nat.succ fuel' =>
    match folderFindById s id with
    | none => some 0
    | some f =>
      match f.parent_id with
      | none => some 1
      | some p => (chainLen fuel' s p).map (fun n => n + 1)

/-- Canonical rank of an id: the length of its ancestor chain (0 when the
walk fails to terminate, which cannot happen on well-formed stores). -/
def rankOf (s : Store) (id : Nat) : Nat :=
  (chainLen (s.folders.length + 1) s id).getD 0

/-- Folder ids are unique (primary key). -/
def NodupFolderIds (s : Store) : Prop := (s.folders.map Folder.id).Nodup

/-- Document ids are unique (primary key). -/
def NodupDocumentIds (s : Store) : Prop := (s.documents.map Document.id).Nodup

/-- `rank` strictly increases from parent to child, for every row of the
store: the witness that the parent relation is acyclic. -/
def RankOK (s : Store) (rank : Nat → Nat) : Prop :=
  ∀ f ∈ s.folders, ∀ p, f.parent_id = some p → rank p < rank f.id

/-- Every non-null `parent_id` references an existing folder row (the
foreign-key constraint of the schema). -/
def ParentRefs (s : Store) : Prop :=
  ∀ f ∈ s.folders, ∀ p, f.parent_id = some p → ∃ g ∈ s.folders, g.id = p

/-- Decidable well-formedness check for the folder table: unique ids,
foreign-key integrity of `parent_id`, and acyclicity (witnessed by the
canonical rank). -/
def wfB (s : Store) : Bool :=
  decide (s.folders.map Folder.id).Nodup && decide (s.documents.map Document.id).Nodup &&
    s.folders.all (fun f =>
      match f.parent_id with
      | none => true
      | some p => s.folders.any (fun g => g.id == p) && decide (rankOf s p < rankOf s f.id))

/-- A well-formed store. -/
abbrev WF (s : Store) : Prop := wfB s = true

/-- `c` is the id of a direct child folder of `p` in `s`. -/
def ChildRel (s : Store) (p c : Nat) : Prop :=
  ∃ f, f ∈ s.folders ∧ f.id = c ∧ f.parent_id = some p

/-- `Desc s a b`: `b` is `a` itself or a transitive descendant folder id of
`a` in `s` (the subtree of `a`). -/
def Desc (s : Store) : Nat → Nat → Prop :=
  Relation.ReflTransGen (ChildRel s)

/-- Ids of the direct child folders of `id`. -/
def childIds (s : Store) (id : Nat) : List Nat :=
  (s.folders.filter (fun f => f.parent_id == some id)).map Folder.id

/-- `HeightLt s id n`: every downward chain of folders starting at `id` has
fewer than `n` levels.  Used to show the fuel of `removeAux` suffices. -/
inductive HeightLt (s : Store) : Nat → Nat → Prop where
  | mk (id n) : (∀ c ∈ childIds s id, HeightLt s c n) → HeightLt s id (n + 1)

/-- The store of the spec's walk-through scenario: Finance(1) ⊃ Reports(2) ∋
q1.pdf(3), plus a root-level folder Misc(4) and a root document note(5). -/
def demoStore : Store :=
  ⟨[⟨1, "Finance", none, "alice", 10⟩,
    ⟨2, "Reports", some 1, "alice", 11⟩,
    ⟨4, "Misc", none, "bob", 12⟩],
   [⟨3, "q1.pdf", "pdf", 1024, some 2, "alice", 13⟩,
    ⟨5, "note.txt", "txt", 64, none, "bob", 14⟩]⟩

/-! # Theorems -/

/-! ## Service singletons (claim C9) -/

theorem folderServiceCalls_cached (inst : FolderServiceInst) (dbs : List DB) :
    folderServiceCalls (some inst) dbs =
      (List.replicate dbs.length inst, some inst) := by
  induction dbs with
  | nil => rfl
  | cons db rest ih =>
    simp [folderServiceCalls, createFolderService, ih, List.replicate_succ]

theorem documentServiceCalls_cached (inst : DocumentServiceInst) (dbs : List DB) :
    documentServiceCalls (some inst) dbs =
      (List.replicate dbs.length inst, some inst) := by
  induction dbs with
  | nil => rfl
  | cons db rest ih =>
    simp [documentServiceCalls, createDocumentService, ih, List.replicate_succ]

/-- Claim C9: after the first call, every subsequent `createFolderService`
(resp. `createDocumentService`) call returns the very same instance created by
the first call — the one bound to the first-supplied database handle — and
ignores its own `db` argument, until the corresponding reset clears the
cache. -/
theorem claim_C9 :
    (∀ db, createFolderService none db = (⟨db⟩, some ⟨db⟩)) ∧
    (∀ inst db, createFolderService (some inst) db = (inst, some inst)) ∧
    (∀ db₀ dbs,
      folderServiceCalls (createFolderService none db₀).2 dbs =
        (List.replicate dbs.length ⟨db₀⟩, some ⟨db₀⟩)) ∧
    (∀ st, resetFolderService st = none) ∧
    (∀ db, createDocumentService none db = (⟨db⟩, some ⟨db⟩)) ∧
    (∀ inst db, createDocumentService (some inst) db = (inst, some inst)) ∧
    (∀ db₀ dbs,
      documentServiceCalls (createDocumentService none db₀).2 dbs =
        (List.replicate dbs.length ⟨db₀⟩, some ⟨db₀⟩)) ∧
    (∀ st, resetDocumentService st = none) := by
  refine ⟨fun db => rfl, fun inst db => rfl, fun db₀ dbs => ?_, fun st => rfl,
    fun db => rfl, fun inst db => rfl, fun db₀ dbs => ?_, fun st => rfl⟩
  · exact folderServiceCalls_cached ⟨db₀⟩ dbs
  · exact documentServiceCalls_cached ⟨db₀⟩ dbs

/-! ## The `parent_id = 0` branch of `GET /api/files` (claim C10) -/

theorem refIsRoot_iff (r : Option Nat) :
    refIsRoot r = true ↔ (r = none ∨ r = some 0) := by
  cases r with
  | none => simp [refIsRoot]
  | some n => simp [refIsRoot]

/-- Claim C10: in `GET /api/files`, `parent_id = 0` is falsy and takes the
same branch as an absent `parent_id`: the responses are identical, and the
root level consists exactly of the folders whose `parent_id` is NULL or 0 and
the documents whose `folder_id` is NULL or 0 (further filtered by `search`
when one is given). -/
theorem claim_C10 :
    (∀ s page limit k o search,
      listFiles s ⟨some 0, page, limit, k, o, search⟩ =
        listFiles s ⟨none, page, limit, k, o, search⟩) ∧
    (∀ s search f,
      f ∈ selectFolders s (some 0) search ↔
        (f ∈ s.folders ∧ (f.parent_id = none ∨ f.parent_id = some 0) ∧
          (searchTruthy search = true → strContains f.name (search.getD "") = true))) ∧
    (∀ s search d,
      d ∈ selectDocuments s (some 0) search ↔
        (d ∈ s.documents ∧ (d.folder_id = none ∨ d.folder_id = some 0) ∧
          (searchTruthy search = true → strContains d.name (search.getD "") = true))) := by
  refine ⟨fun s page limit k o search => ?_, fun s search f => ?_, fun s search d => ?_⟩
  · simp [listFiles, mergedFiles, selectFolders, selectDocuments, parentTruthy]
  · cases hs : searchTruthy search <;>
      (simp [selectFolders, parentTruthy, hs, List.mem_filter, refIsRoot_iff,
        and_assoc]
       try tauto)
  · cases hs : searchTruthy search <;>
      (simp [selectDocuments, parentTruthy, hs, List.mem_filter, refIsRoot_iff,
        and_assoc]
       try tauto)

/-! ## Sort semantics of the unified listing (claim C7) -/

theorem fileLe_total (k : SortKey) (o : SortOrder) (a b : UFile) :
    (fileLe k o a b || fileLe k o b a) = true := by
  cases k <;> cases o <;> simp [fileLe] <;> exact le_total _ _

theorem fileLe_trans (k : SortKey) (o : SortOrder) (a b c : UFile) :
    fileLe k o a b = true → fileLe k o b c = true → fileLe k o a c = true := by
  cases k <;> cases o <;> simp [fileLe] <;>
    first
    | exact fun h h' => le_trans h h'
    | exact fun h h' => le_trans h' h

/-- Claim C7: for every sort key and order, the merged folder+document
sequence is totally ordered by the requested comparator before slicing
(`name`/`type` lexicographically, `size` numerically with missing size read
as 0, `created_at` chronologically, in the requested direction), the sort is
a permutation of the merge, the route slices the sorted sequence, and ties
are not further constrained. -/
theorem claim_C7 :
    (∀ k o files, (sortFiles k o files).Perm files) ∧
    (∀ k o files, (sortFiles k o files).Pairwise (fun a b => fileLe k o a b = true)) ∧
    (∀ s q, (listFiles s q).data =
      ((sortFiles q.sort q.order (mergedFiles s q)).drop ((q.page - 1) * q.limit)).take
        q.limit) ∧
    (∀ a b, fileLe SortKey.name SortOrder.asc a b = decide (a.name ≤ b.name)) ∧
    (∀ a b, fileLe SortKey.name SortOrder.desc a b = decide (b.name ≤ a.name)) ∧
    (∀ a b, fileLe SortKey.type SortOrder.asc a b = decide (a.type ≤ b.type)) ∧
    (∀ a b, fileLe SortKey.type SortOrder.desc a b = decide (b.type ≤ a.type)) ∧
    (∀ a b, fileLe SortKey.size SortOrder.asc a b =
      decide (a.size.getD 0 ≤ b.size.getD 0)) ∧
    (∀ a b, fileLe SortKey.size SortOrder.desc a b =
      decide (b.size.getD 0 ≤ a.size.getD 0)) ∧
    (∀ a b, fileLe SortKey.created_at SortOrder.asc a b =
      decide (a.created_at ≤ b.created_at)) ∧
    (∀ a b, fileLe SortKey.created_at SortOrder.desc a b =
      decide (b.created_at ≤ a.created_at)) := by
  refine ⟨fun k o files => List.mergeSort_perm files (fileLe k o),
    fun k o files => List.sorted_mergeSort (fileLe_trans k o) (fileLe_total k o) files,
    fun s q => rfl, fun a b => rfl, fun a b => rfl, fun a b => rfl, fun a b => rfl,
    fun a b => rfl, fun a b => rfl, fun a b => rfl, fun a b => rfl⟩

/-! ## Pagination of the unified listing (claim C6) -/

theorem add_pred_div_eq_ceil (a b : ℕ) (hb : 0 < b) :
    (a + b - 1) / b = ⌈(a : ℚ) / (b : ℚ)⌉₊ := by
  have hbq : (0 : ℚ) < (b : ℚ) := by exact_mod_cast hb
  apply Nat.le_antisymm
  · rw [Nat.div_le_iff_le_mul_add_pred hb]
    have h1 : (a : ℚ) ≤ (⌈(a : ℚ) / (b : ℚ)⌉₊ : ℚ) * b :=
      (div_le_iff₀ hbq).1 (Nat.le_ceil ((a : ℚ) / (b : ℚ)))
    have h2 : a ≤ ⌈(a : ℚ) / (b : ℚ)⌉₊ * b := by exact_mod_cast h1
    have h3 : b * ⌈(a : ℚ) / (b : ℚ)⌉₊ = ⌈(a : ℚ) / (b : ℚ)⌉₊ * b := Nat.mul_comm _ _
    omega
  · rw [Nat.ceil_le, div_le_iff₀ hbq]
    have h4 : a + b - 1 < ((a + b - 1) / b + 1) * b :=
      (Nat.div_lt_iff_lt_mul hb).1 (Nat.lt_succ_self _)
    have hd : ((a + b - 1) / b + 1) * b = ((a + b - 1) / b) * b + b := by ring
    have h5 : a ≤ ((a + b - 1) / b) * b := by omega
    exact_mod_cast h5

/-- Claim C6: for every accepted unified-listing request, `total` is the
folder-match count plus the document-match count, `totalPages = ⌈total /
limit⌉`, the returned items are the slice `[offset, offset + limit)` of the
merged sorted sequence with `offset = (page-1)*limit`, `page` defaults to 1,
`limit` defaults to 10, and a `limit` above 100 is not accepted. -/
theorem claim_C6 (s : Store) (r : RawFilesQuery) (q : FilesQuery)
    (h : parseFilesQuery r = some q) :
    (listFiles s q).pagination.total =
      (selectFolders s q.parent_id q.search).length +
        (selectDocuments s q.parent_id q.search).length ∧
    (listFiles s q).pagination.totalPages =
      ⌈((listFiles s q).pagination.total : ℚ) / (q.limit : ℚ)⌉₊ ∧
    (listFiles s q).data =
      ((sortFiles q.sort q.order (mergedFiles s q)).drop ((q.page - 1) * q.limit)).take
        q.limit ∧
    (listFiles s q).pagination.page = q.page ∧
    (listFiles s q).pagination.limit = q.limit ∧
    1 ≤ q.page ∧ 1 ≤ q.limit ∧ q.limit ≤ 100 ∧
    (r.page = none → q.page = 1) ∧
    (r.limit = none → q.limit = 10) ∧
    (∀ r' : RawFilesQuery, ∀ l, r'.limit = some l → 100 < l →
      parseFilesQuery r' = none) := by
  unfold parseFilesQuery at h
  split_ifs at h with h1 h2 h3
  have hq : q = ⟨r.parent_id, (r.page.getD 1).toNat, (r.limit.getD 10).toNat,
      r.sort.getD SortKey.created_at, r.order.getD SortOrder.desc, r.search⟩ :=
    (Option.some.inj h).symm
  subst hq
  refine ⟨by simp [listFiles, mergedFiles], ?_, rfl, rfl, rfl, ?_, ?_, ?_, ?_, ?_, ?_⟩
  · exact add_pred_div_eq_ceil _ _ (show 0 < (r.limit.getD 10).toNat by omega)
  · show 1 ≤ (r.page.getD 1).toNat
    omega
  · show 1 ≤ (r.limit.getD 10).toNat
    omega
  · show (r.limit.getD 10).toNat ≤ 100
    omega
  · intro hp
    show (r.page.getD 1).toNat = 1
    rw [hp]
    rfl
  · intro hl
    show (r.limit.getD 10).toNat = 10
    rw [hl]
    rfl
  · intro r' l hl hgt
    unfold parseFilesQuery
    rw [hl]
    simp only [Option.getD_some]
    split_ifs with g1 g2
    · rfl
    · rfl
    · rfl

/-! ## Bulk move (claim C8) -/

theorem fileFindByIds_mapped (s : Store) (ids : List Nat) (folderId : Option Nat)
    (hids : ids ≠ []) :
    fileFindByIds
        ⟨s.folders,
          s.documents.map
            (fun d => if ids.contains d.id then reassignTo folderId d else d)⟩ ids =
      (fileFindByIds s ids).map (reassignTo folderId) := by
  rcases ids with _ | ⟨i, is⟩
  · exact absurd rfl hids
  · show (List.map _ s.documents).filter _ = (s.documents.filter _).map _
    rw [List.filter_map]
    have hpred :
        s.documents.filter
            ((fun d => (i :: is).contains d.id) ∘
              fun d => if (i :: is).contains d.id then reassignTo folderId d else d) =
          s.documents.filter (fun d => (i :: is).contains d.id) := by
      apply List.filter_congr
      intro d _
      by_cases hd : d.id = i ∨ d.id ∈ is
      · simp [Function.comp, hd, reassignTo]
      · simp [Function.comp, hd]
    rw [hpred]
    apply List.map_congr_left
    intro d hd
    rw [List.mem_filter] at hd
    have hor : d.id = i ∨ d.id ∈ is := by simpa using hd.2
    simp [hor]

theorem moveToFolder_found (s : Store) (ids : List Nat) (folderId : Option Nat)
    (hne : fileFindByIds s ids ≠ []) :
    moveToFolder s ids folderId =
      ((fileFindByIds s ids).map (reassignTo folderId),
        ⟨s.folders,
          s.documents.map
            (fun d => if ids.contains d.id then reassignTo folderId d else d)⟩) := by
  have hids : ids ≠ [] := by
    intro h
    exact hne (by simp [fileFindByIds, h])
  rcases hm : fileFindByIds s ids with _ | ⟨x, xs⟩
  · exact absurd hm hne
  · simp only [moveToFolder, hm]
    rw [fileFindByIds_mapped s ids folderId hids, hm]

/-- Claim C8: `moveFiles` first checks a non-null destination folder exists:
when it does not, it returns an empty result and performs no store mutation;
when it exists (or is null) the call reassigns `folder_id` for the whole
matched batch and returns the post-move snapshot of the matched documents
(an empty match is likewise a mutation-free no-op). -/
theorem claim_C8 (s : Store) (ids : List Nat) :
    (∀ fid, folderFindById s fid = none → moveFiles s ids (some fid) = ([], s)) ∧
    (∀ fid f, folderFindById s fid = some f →
      moveFiles s ids (some fid) = moveToFolder s ids (some fid)) ∧
    (moveFiles s ids none = moveToFolder s ids none) ∧
    (∀ folderId, fileFindByIds s ids = [] → moveToFolder s ids folderId = ([], s)) ∧
    (∀ folderId, fileFindByIds s ids ≠ [] →
      moveToFolder s ids folderId =
        ((fileFindByIds s ids).map (reassignTo folderId),
          ⟨s.folders,
            s.documents.map
              (fun d => if ids.contains d.id then reassignTo folderId d else d)⟩)) := by
  refine ⟨fun fid h => ?_, fun fid f h => ?_, ?_, fun folderId h => ?_,
    fun folderId h => moveToFolder_found s ids folderId h⟩
  · simp [moveFiles, folderMissing, h]
  · simp [moveFiles, folderMissing, h]
  · simp [moveFiles, folderMissing]
  · unfold moveToFolder
    rw [h]

/-! ## Create/update validation (claim C5) -/

theorem mem_lt_nextId (ids : List Nat) (i : Nat) (h : i ∈ ids) : i < nextId ids := by
  unfold nextId
  induction ids with
  | nil => cases h
  | cons a l ih =>
    rcases List.mem_cons.1 h with rfl | hl
    · simp
      omega
    · have := ih hl
      simp at this ⊢
      omega

theorem fileRepoCreate_isSome (s : Store) (d : CreateFileDTO) (now : Nat) :
    (fileRepoCreate s d now).1.isSome = true := by
  unfold fileRepoCreate fileFindById
  dsimp only
  apply List.find?_isSome.2
  exact ⟨⟨nextId (s.documents.map Document.id), d.name, d.type, d.size,
    d.folder_id, d.created_by, now⟩, by simp, by simp⟩

theorem fileRepoUpdate_isSome (s : Store) (id : Nat) (p : FilePatch)
    (d₀ : Document) (h : fileFindById s id = some d₀) :
    ((fileRepoUpdate s id p).1).isSome = true := by
  have hmem : d₀ ∈ s.documents := List.mem_of_find?_eq_some h
  have hid : d₀.id = id := by
    have := List.find?_some h
    simpa using this
  unfold fileRepoUpdate fileFindById
  dsimp only
  apply List.find?_isSome.2
  refine ⟨if d₀.id == id then applyFilePatch p d₀ else d₀,
    List.mem_map_of_mem _ hmem, ?_⟩
  rw [hid]
  simp [applyFilePatch, hid]

/-- The counterexample to claim C5: the document service's `createDocument`
performs no validation at all — creating a document with `size = -5` succeeds
and mutates the store instead of being rejected. -/
theorem claim_C5_counterexample :
    (createDocument demoStore ⟨"bad", "pdf", -5, none, "mallory"⟩ 20).1 ≠ none ∧
    (createDocument demoStore ⟨"bad", "pdf", -5, none, "mallory"⟩ 20).2 ≠ demoStore := by
  exact ⟨by decide, by decide⟩

/-- Claim C5 (amended): the file service's `createFile` rejects — before any
store mutation — an empty/whitespace-only `name`, a negative `size`, and a
non-null `folder_id` that does not resolve to an existing folder, and succeeds
exactly when all checks pass; `updateFile` applies the same `folder_id`
existence rule to its patch.  The document service's `createDocument`
(documentService variant), however, performs no validation and delegates
straight to the repository insert. -/
theorem claim_C5_amended (s : Store) :
    (∀ d now, d.name.trim.isEmpty = true → (createFile s d now : Option Document × Store) = (none, s)) ∧
    (∀ d now, d.size < 0 → createFile s d now = (none, s)) ∧
    (∀ d now fid, d.folder_id = some fid → folderFindById s fid = none →
      createFile s d now = (none, s)) ∧
    (∀ d now, 0 ≤ d.size → d.name.trim.isEmpty = false →
      (∀ fid, d.folder_id = some fid → (folderFindById s fid).isSome = true) →
      createFile s d now = fileRepoCreate s d now ∧
        (createFile s d now).1.isSome = true) ∧
    (∀ id p fid, p.folder_id = some (some fid) → folderFindById s fid = none →
      updateFile s id p = (none, s)) ∧
    (∀ id p d₀ fid, fileFindById s id = some d₀ → p.folder_id = some (some fid) →
      (∀ z, p.size = some z → 0 ≤ z) →
      (∀ n, p.name = some n → n.trim.isEmpty = false) →
      ((updateFile s id p).1.isSome = true ↔ (folderFindById s fid).isSome = true)) ∧
    (∀ d now, createDocument s d now = fileRepoCreate s d now) := by
  have missF : ∀ ref : Option Nat,
      folderMissing s (some ref) = true ↔
        ∃ fid, ref = some fid ∧ folderFindById s fid = none := by
    intro ref
    rcases ref with _ | fid
    · simp [folderMissing]
    · simp [folderMissing, Option.isNone_iff_eq_none]
  refine ⟨?_, ?_, ?_, ?_, ?_, ?_, fun d now => rfl⟩
  · intro d now hname
    unfold createFile
    split_ifs <;> rfl
  · intro d now hz
    unfold createFile
    split_ifs with h1 h2 h3
    · rfl
    · rfl
    · rfl
    · simp at h2
      omega
  · intro d now fid hfid hnone
    unfold createFile
    rw [if_pos ((missF d.folder_id).2 ⟨fid, hfid, hnone⟩)]
  · intro d now hz hname hfolder
    have hmiss : folderMissing s (some d.folder_id) = false := by
      rw [Bool.eq_false_iff]
      intro hc
      obtain ⟨fid, hfid, hnone⟩ := (missF d.folder_id).1 hc
      have := hfolder fid hfid
      rw [hnone] at this
      simp at this
    have heq : createFile s d now = fileRepoCreate s d now := by
      unfold createFile
      rw [hmiss]
      simp only [Bool.false_eq_true, if_false]
      rw [if_neg (by simpa using not_lt.2 hz), if_neg (by simp [hname])]
    exact ⟨heq, heq ▸ fileRepoCreate_isSome s d now⟩
  · intro id p fid hp hnone
    unfold updateFile
    have hmiss : folderMissing s p.folder_id = true := by
      rw [hp]
      simp [folderMissing, Option.isNone_iff_eq_none, hnone]
    rw [hmiss]
    simp
  · intro id p d₀ fid hfind hp hz hname
    unfold updateFile
    rw [hfind]
    simp only [Option.isSome_some, Option.isNone_some, Bool.false_eq_true, if_false]
    have hsz : sizeBad p = false := by
      unfold sizeBad
      rcases hs : p.size with _ | z
      · rfl
      · have := hz z hs
        simp
        omega
    have hnm : nameBad p = false := by
      unfold nameBad
      rcases hs : p.name with _ | n
      · rfl
      · exact hname n hs
    rw [hp]
    cases hg : folderFindById s fid with
    | none =>
      have : folderMissing s (some (some fid)) = true := by
        simp [folderMissing, Option.isNone_iff_eq_none, hg]
      rw [this]
      simp [hg]
    | some g =>
      have : folderMissing s (some (some fid)) = false := by
        simp [folderMissing, Option.isNone_iff_eq_none, hg]
      rw [this]
      simp only [Bool.false_eq_true, if_false]
      rw [hsz, hnm]
      simp [fileRepoUpdate_isSome s id p d₀ hfind, hg]

/-! ## Basic facts about lookups and well-formedness -/

theorem folderFindById_mem {s : Store} {id : Nat} {f : Folder}
    (h : folderFindById s id = some f) : f ∈ s.folders ∧ f.id = id := by
  refine ⟨List.mem_of_find?_eq_some h, ?_⟩
  have := List.find?_some h
  simpa using this

theorem find?_id_of_mem {l : List Folder} (hnd : (l.map Folder.id).Nodup)
    {f : Folder} (hf : f ∈ l) : l.find? (fun g => g.id == f.id) = some f := by
  induction l with
  | nil => cases hf
  | cons a t ih =>
    rw [List.map_cons, List.nodup_cons] at hnd
    rcases List.mem_cons.1 hf with rfl | ht
    · simp [List.find?]
    · have hna : (a.id == f.id) = false := by
        simp only [beq_eq_false_iff_ne, ne_eq]
        intro he
        exact hnd.1 (he ▸ List.mem_map_of_mem Folder.id ht)
      rw [List.find?_cons]
      simp only [hna, cond_false]
      exact ih hnd.2 ht

theorem folderFindById_of_mem {s : Store} (hnd : (s.folders.map Folder.id).Nodup)
    {f : Folder} (hf : f ∈ s.folders) : folderFindById s f.id = some f :=
  find?_id_of_mem hnd hf

theorem records_unique {l : List Folder} (hnd : (l.map Folder.id).Nodup)
    {g g' : Folder} (hg : g ∈ l) (hg' : g' ∈ l) (he : g.id = g'.id) : g = g' :=
  List.inj_on_of_nodup_map hnd hg hg' he

theorem WF_nodupF {s : Store} (h : WF s) : (s.folders.map Folder.id).Nodup := by
  have h' : wfB s = true := h
  unfold wfB at h'
  simp only [Bool.and_eq_true, decide_eq_true_eq] at h'
  exact h'.1.1

theorem WF_nodupD {s : Store} (h : WF s) : (s.documents.map Document.id).Nodup := by
  have h' : wfB s = true := h
  unfold wfB at h'
  simp only [Bool.and_eq_true, decide_eq_true_eq] at h'
  exact h'.1.2

theorem WF_row {s : Store} (h : WF s) {f : Folder} (hf : f ∈ s.folders) {p : Nat}
    (hp : f.parent_id = some p) :
    (∃ g ∈ s.folders, g.id = p) ∧ rankOf s p < rankOf s f.id := by
  have h' : wfB s = true := h
  unfold wfB at h'
  simp only [Bool.and_eq_true, List.all_eq_true] at h'
  have hx := h'.2 f hf
  rw [hp] at hx
  simp only [Bool.and_eq_true, decide_eq_true_eq, List.any_eq_true, beq_iff_eq] at hx
  obtain ⟨⟨g, hg, hgid⟩, hrank⟩ := hx
  exact ⟨⟨g, hg, hgid⟩, hrank⟩

theorem WF_parentRefs {s : Store} (h : WF s) : ParentRefs s :=
  fun _f hf _p hp => (WF_row h hf hp).1

theorem WF_rankOK {s : Store} (h : WF s) : RankOK s (rankOf s) :=
  fun _f hf _p hp => (WF_row h hf hp).2

/-! ## Chain-walk and counting lemmas -/

theorem chainLen_mono {s : Store} {x n : Nat} :
    ∀ {fuel fuel' : Nat}, chainLen fuel s x = some n → fuel ≤ fuel' →
      chainLen fuel' s x = some n := by
  suffices h : ∀ (fuel : Nat), ∀ (x n : Nat), ∀ {fuel' : Nat},
      chainLen fuel s x = some n → fuel ≤ fuel' → chainLen fuel' s x = some n by
    intro fuel fuel' h1 h2
    exact h fuel x n h1 h2
  intro fuel
  induction fuel with
  | zero =>
    intro x n fuel' h1
    simp [chainLen] at h1
  | succ m ih =>
    intro x n fuel' h1 hle
    rcases Nat.exists_eq_add_of_le hle with ⟨k, rfl⟩
    show chainLen (m + 1 + k) s x = some n
    rw [Nat.add_right_comm]
    rw [chainLen] at h1 ⊢
    cases hfind : folderFindById s x with
    | none =>
      simp only [hfind] at h1 ⊢
      exact h1
    | some f =>
      simp only [hfind] at h1 ⊢
      cases hp : f.parent_id with
      | none =>
        simp only [hp] at h1 ⊢
        exact h1
      | some p =>
        simp only [hp] at h1 ⊢
        rw [Option.map_eq_some'] at h1
        obtain ⟨kk, hkk, rfl⟩ := h1
        have := ih p kk hkk (Nat.le_add_right m k)
        rw [this]
        rfl

theorem countP_lt_countP {α : Type} (l : List α) (p q : α → Bool)
    (hpq : ∀ a ∈ l, p a = true → q a = true) (a₀ : α) (ha : a₀ ∈ l)
    (hq : q a₀ = true) (hp : p a₀ = false) : l.countP p < l.countP q := by
  induction l with
  | nil => cases ha
  | cons a t ih =>
    rw [List.countP_cons, List.countP_cons]
    rcases List.mem_cons.1 ha with rfl | ht
    · have hmono : t.countP p ≤ t.countP q :=
        List.countP_mono_left (fun x hx => hpq x (List.mem_cons_of_mem _ hx))
      rw [hp, hq, show (if (false : Bool) = true then (1 : Nat) else 0) = 0 from rfl,
        show (if (true : Bool) = true then (1 : Nat) else 0) = 1 from rfl]
      omega
    · have hstrict := ih (fun x hx h => hpq x (List.mem_cons_of_mem _ hx) h) ht
      have hif : (if p a = true then 1 else 0 : Nat) ≤ (if q a = true then 1 else 0) := by
        by_cases hpa : p a = true
        · simp [hpa, hpq a (List.mem_cons_self a t) hpa]
        · simp [hpa]
      omega

theorem countP_lt_length {α : Type} (l : List α) (p : α → Bool) (a₀ : α)
    (ha : a₀ ∈ l) (hp : p a₀ = false) : l.countP p < l.length := by
  have := countP_lt_countP l p (fun _ => true) (fun a _ _ => rfl) a₀ ha rfl hp
  simpa [List.countP_true] using this

/-! ## Descendant-relation lemmas -/

theorem childRel_iff_childIds {s : Store} {p c : Nat} :
    ChildRel s p c ↔ c ∈ childIds s p := by
  unfold ChildRel childIds
  constructor
  · rintro ⟨f, hf, rfl, hp⟩
    exact List.mem_map_of_mem _ (List.mem_filter.2 ⟨hf, by simp [hp]⟩)
  · intro h
    obtain ⟨f, hf, rfl⟩ := List.mem_map.1 h
    have := List.mem_filter.1 hf
    exact ⟨f, this.1, rfl, by simpa using this.2⟩

theorem desc_mono {s s' : Store} (hsub : ∀ f : Folder, f ∈ s'.folders → f ∈ s.folders)
    {a b : Nat} (h : Desc s' a b) : Desc s a b := by
  refine Relation.ReflTransGen.mono ?_ h
  rintro x y ⟨f, hf, e1, e2⟩
  exact ⟨f, hsub f hf, e1, e2⟩

theorem rank_lt_of_childRel {s : Store} {rank : Nat → Nat} (hr : RankOK s rank)
    {p c : Nat} (hc : ChildRel s p c) : rank p < rank c := by
  obtain ⟨f, hf, rfl, hp⟩ := hc
  exact hr f hf p hp

theorem rank_le_of_desc {s : Store} {rank : Nat → Nat} (hr : RankOK s rank)
    {a b : Nat} (hd : Desc s a b) : rank a ≤ rank b := by
  induction hd with
  | refl => exact Nat.le_refl _
  | tail h1 h2 ih => exact Nat.le_trans ih (Nat.le_of_lt (rank_lt_of_childRel hr h2))

theorem siblings_not_desc {s : Store} {rank : Nat → Nat}
    (hnd : (s.folders.map Folder.id).Nodup) (hr : RankOK s rank)
    {id c c' : Nat} (hc : ChildRel s id c) (hc' : ChildRel s id c') (hne : c ≠ c') :
    ¬ Desc s c c' := by
  intro hd
  rcases (Relation.ReflTransGen.cases_tail hd) with heq | ⟨x, hdx, hx⟩
  · exact hne heq.symm
  · obtain ⟨g', hg', hg'id, hg'par⟩ := hx
    obtain ⟨g'', hg'', hg''id, hg''par⟩ := hc'
    have : g' = g'' := records_unique hnd hg' hg'' (by rw [hg'id, hg''id])
    subst this
    rw [hg'par] at hg''par
    have hxid : x = id := by injection hg''par
    subst hxid
    have h1 : rank c ≤ rank x := rank_le_of_desc hr hdx
    have h2 : rank x < rank c := rank_lt_of_childRel hr hc
    omega

theorem desc_lift {s s₁ : Store} {c : Nat}
    (hchar : ∀ g : Folder, g ∈ s₁.folders ↔ (g ∈ s.folders ∧ ¬ Desc s c g.id))
    {a b : Nat} (hd : Desc s a b) (hnb : ¬ Desc s c b) : Desc s₁ a b := by
  induction hd using Relation.ReflTransGen.head_induction_on with
  | refl => exact Relation.ReflTransGen.refl
  | head h h' ih =>
    rename_i a' x
    obtain ⟨f, hf, hfid, hfpar⟩ := h
    have hnx : ¬ Desc s c x := by
      intro hcx
      exact hnb (Relation.ReflTransGen.trans hcx h')
    have hf₁ : f ∈ s₁.folders := (hchar f).2 ⟨hf, by rw [hfid]; exact hnx⟩
    exact Relation.ReflTransGen.head ⟨f, hf₁, hfid, hfpar⟩ ih

theorem desc_unfold {s : Store} {a b : Nat} :
    Desc s a b ↔ a = b ∨ ∃ c, ChildRel s a c ∧ Desc s c b :=
  Relation.ReflTransGen.cases_head_iff

/-! ## Height lemmas: the fuel of `removeAux` suffices -/

theorem heightLt_inv {s : Store} {id n : Nat} (h : HeightLt s id (n + 1)) :
    ∀ c ∈ childIds s id, HeightLt s c n := by
  cases h with
  | mk _ _ h => exact h

theorem heightLt_mono_fuel {s : Store} {id n : Nat} (h : HeightLt s id n) :
    ∀ {m : Nat}, n ≤ m → HeightLt s id m := by
  induction h with
  | mk id k hk ih =>
    intro m hm
    rcases Nat.exists_eq_add_of_le hm with ⟨j, rfl⟩
    rw [Nat.add_right_comm]
    exact HeightLt.mk id (k + j) (fun c hc => ih c hc (Nat.le_add_right k j))

theorem heightLt_antitone {s s₁ : Store}
    (hsub : ∀ f : Folder, f ∈ s₁.folders → f ∈ s.folders) {id n : Nat}
    (h : HeightLt s id n) : HeightLt s₁ id n := by
  induction h with
  | mk id k hk ih =>
    refine HeightLt.mk id k (fun c hc => ?_)
    obtain ⟨f, hf, e1, e2⟩ := childRel_iff_childIds.2 hc
    exact ih c (childRel_iff_childIds.1 ⟨f, hsub f hf, e1, e2⟩)

theorem heightLt_of_rankOK {s : Store} {rank : Nat → Nat} (hr : RankOK s rank)
    (id : Nat) : HeightLt s id (s.folders.length + 1) := by
  suffices h : ∀ n id, s.folders.countP (fun f => decide (rank id < rank f.id)) ≤ n →
      HeightLt s id (n + 1) by
    have hle : s.folders.countP (fun f => decide (rank id < rank f.id)) ≤
        s.folders.length := List.countP_le_length _
    exact heightLt_mono_fuel (h _ id hle) (by omega)
  intro n
  induction n using Nat.strong_induction_on with
  | _ n ih =>
    intro id hcount
    refine HeightLt.mk id n (fun c hc => ?_)
    have hrel : ChildRel s id c := childRel_iff_childIds.2 hc
    have hlt : rank id < rank c := rank_lt_of_childRel hr hrel
    obtain ⟨f, hf, hfid, _⟩ := hrel
    have hmc : s.folders.countP (fun g => decide (rank c < rank g.id)) <
        s.folders.countP (fun g => decide (rank id < rank g.id)) := by
      refine countP_lt_countP s.folders _ _ ?_ f hf ?_ ?_
      · intro a _ ha
        rw [decide_eq_true_eq] at ha
        rw [decide_eq_true_eq]
        omega
      · rw [decide_eq_true_eq, hfid]
        exact hlt
      · rw [decide_eq_false_iff_not, hfid]
        omega
    have hmcn : s.folders.countP (fun g => decide (rank c < rank g.id)) < n :=
      Nat.lt_of_lt_of_le hmc hcount
    exact heightLt_mono_fuel (ih _ hmcn c (Nat.le_refl _)) (by omega)

/-! ## The upward walk terminates on well-formed stores -/

theorem chainLen_succ (fuel : Nat) (s : Store) (id : Nat) :
    chainLen (fuel + 1) s id =
      match folderFindById s id with
      | none => some 0
      | some f =>
        match f.parent_id with
        | none => some 1
        | some p => (chainLen fuel s p).map (fun n => n + 1) := rfl

theorem getPathAux_succ (fuel : Nat) (s : Store) (id : Nat) :
    getPathAux (fuel + 1) s id =
      match folderFindById s id with
      | none => []
      | some f =>
        match f.parent_id with
        | none => [f]
        | some p => getPathAux fuel s p ++ [f] := rfl

theorem chainLen_succ_none {s : Store} {x : Nat} (hfind : folderFindById s x = none)
    (k : Nat) : chainLen (k + 1) s x = some 0 := by
  rw [chainLen_succ, hfind]

theorem chainLen_isSome_of_rankOK {s : Store} {rank : Nat → Nat}
    (hr : RankOK s rank) (x : Nat) :
    (chainLen (s.folders.length + 1) s x).isSome = true := by
  suffices h : ∀ n x, s.folders.countP (fun f => decide (rank f.id < rank x)) ≤ n →
      (chainLen (n + 2) s x).isSome = true by
    cases hfind : folderFindById s x with
    | none =>
      cases hl : s.folders.length with
      | zero => rw [chainLen_succ_none hfind]; rfl
      | succ k => rw [chainLen_succ_none hfind]; rfl
    | some f =>
      have hmem := List.mem_of_find?_eq_some hfind
      have hfid : f.id = x := by
        have := List.find?_some hfind
        simpa using this
      have hm : s.folders.countP (fun g => decide (rank g.id < rank x)) <
          s.folders.length := by
        refine countP_lt_length s.folders _ f hmem ?_
        rw [decide_eq_false_iff_not, hfid]
        omega
      have h2 := h (s.folders.length - 1) x (by omega)
      have : s.folders.length - 1 + 2 = s.folders.length + 1 := by omega
      rw [this] at h2
      exact h2
  intro n
  induction n using Nat.strong_induction_on with
  | _ n ih =>
    intro x hcount
    rw [show n + 2 = (n + 1) + 1 from rfl, chainLen_succ]
    cases hfind : folderFindById s x with
    | none => rfl
    | some f =>
      cases hp : f.parent_id with
      | none => simp [hp]
      | some p =>
        simp only [hp]
        rw [Option.isSome_map']
        have hfid : f.id = x := by
          have := List.find?_some hfind
          simpa using this
        have hmem := List.mem_of_find?_eq_some hfind
        have hlt : rank p < rank x := by
          have := hr f hmem p hp
          rw [hfid] at this
          exact this
        cases hfindp : folderFindById s p with
        | none => rw [chainLen_succ_none hfindp]; rfl
        | some g =>
          have hgid : g.id = p := by
            have := List.find?_some hfindp
            simpa using this
          have hgmem := List.mem_of_find?_eq_some hfindp
          have hmp : s.folders.countP (fun a => decide (rank a.id < rank p)) <
              s.folders.countP (fun a => decide (rank a.id < rank x)) := by
            refine countP_lt_countP s.folders _ _ ?_ g hgmem ?_ ?_
            · intro a _ ha
              rw [decide_eq_true_eq] at ha
              rw [decide_eq_true_eq]
              omega
            · rw [decide_eq_true_eq, hgid]
              exact hlt
            · rw [decide_eq_false_iff_not, hgid]
              omega
          have hmpn : s.folders.countP (fun a => decide (rank a.id < rank p)) < n :=
            Nat.lt_of_lt_of_le hmp hcount
          have h2 := ih _ hmpn p (Nat.le_refl _)
          obtain ⟨m, hm⟩ := Option.isSome_iff_exists.1 h2
          have := chainLen_mono hm (show (s.folders.countP
            (fun a => decide (rank a.id < rank p))) + 2 ≤ n + 1 by omega)
          rw [this]
          rfl

/-! ## Subfolder enumeration facts -/

theorem mem_folderFindAll_children {s : Store} {id : Nat} {c : Folder} :
    c ∈ folderFindAll s (some (some id)) ↔
      (c ∈ s.folders ∧ c.parent_id = some id) := by
  unfold folderFindAll sortFoldersByCreatedDesc
  rw [(List.mergeSort_perm _ _).mem_iff, List.mem_filter]
  simp

theorem nodup_ids_folderFindAll {s : Store}
    (hnd : (s.folders.map Folder.id).Nodup) (id : Nat) :
    ((folderFindAll s (some (some id))).map Folder.id).Nodup := by
  have hperm : (folderFindAll s (some (some id))).Perm
      (s.folders.filter (fun f => f.parent_id == some id)) := by
    unfold folderFindAll sortFoldersByCreatedDesc
    exact List.mergeSort_perm _ _
  have hflt : ((s.folders.filter (fun f => f.parent_id == some id)).map
      Folder.id).Nodup :=
    List.Nodup.sublist ((List.filter_sublist s.folders).map Folder.id) hnd
  exact ((hperm.map Folder.id).nodup_iff).2 hflt

theorem childRel_of_mem_subfolders {s : Store} {id : Nat} {c : Folder}
    (hc : c ∈ folderFindAll s (some (some id))) : ChildRel s id c.id := by
  obtain ⟨h1, h2⟩ := mem_folderFindAll_children.1 hc
  exact ⟨c, h1, rfl, h2⟩

theorem subfolders_pairwise {s : Store} {rank : Nat → Nat}
    (hnd : (s.folders.map Folder.id).Nodup) (hr : RankOK s rank) (id : Nat) :
    (folderFindAll s (some (some id))).Pairwise
      (fun a b => ¬ Desc s a.id b.id) := by
  have hnodup := nodup_ids_folderFindAll hnd id
  have hpw : (folderFindAll s (some (some id))).Pairwise
      (fun a b => a.id ≠ b.id) := by
    rw [List.Nodup, List.pairwise_map] at hnodup
    exact hnodup
  refine hpw.imp_of_mem ?_
  intro a b ha hb hne
  exact siblings_not_desc hnd hr (childRel_of_mem_subfolders ha)
    (childRel_of_mem_subfolders hb) hne

theorem desc_from_subfolders {s : Store} {id y : Nat} :
    Desc s id y ↔
      (y = id ∨ ∃ c ∈ folderFindAll s (some (some id)), Desc s c.id y) := by
  rw [desc_unfold]
  constructor
  · rintro (rfl | ⟨cid, hrel, hd⟩)
    · exact Or.inl rfl
    · obtain ⟨f, hf, rfl, hp⟩ := hrel
      exact Or.inr ⟨f, mem_folderFindAll_children.2 ⟨hf, hp⟩, hd⟩
  · rintro (rfl | ⟨c, hc, hd⟩)
    · exact Or.inl rfl
    · exact Or.inr ⟨c.id, childRel_of_mem_subfolders hc, hd⟩

/-! ## The recursive delete removes exactly the subtree -/

theorem removeSpec : ∀ fuel : Nat,
    (∀ (s : Store) (rank : Nat → Nat) (id : Nat) (f₀ : Folder),
      (s.folders.map Folder.id).Nodup → RankOK s rank → HeightLt s id fuel →
      folderFindById s id = some f₀ →
      ∃ s' tr, removeAux fuel s id = (some f₀, s', tr) ∧
        s'.folders.Sublist s.folders ∧ s'.documents.Sublist s.documents ∧
        (∀ g : Folder, g ∈ s'.folders ↔ (g ∈ s.folders ∧ ¬ Desc s id g.id)) ∧
        (∀ d : Document, d ∈ s'.documents ↔
          (d ∈ s.documents ∧ ∀ x, Desc s id x → d.folder_id ≠ some x))) ∧
    (∀ (s : Store) (rank : Nat → Nat) (l : List Folder),
      (s.folders.map Folder.id).Nodup → RankOK s rank →
      (∀ c ∈ l, c ∈ s.folders) → (∀ c ∈ l, HeightLt s c.id fuel) →
      l.Pairwise (fun a b => ¬ Desc s a.id b.id) →
      ∃ s' tr, removeChildren fuel s l = (s', tr) ∧
        s'.folders.Sublist s.folders ∧ s'.documents.Sublist s.documents ∧
        (∀ g : Folder, g ∈ s'.folders ↔
          (g ∈ s.folders ∧ ∀ c ∈ l, ¬ Desc s c.id g.id)) ∧
        (∀ d : Document, d ∈ s'.documents ↔
          (d ∈ s.documents ∧ ∀ c ∈ l, ∀ x, Desc s c.id x → d.folder_id ≠ some x))) := by
  intro fuel
  induction fuel with
  | zero =>
    constructor
    · intro s rank id f₀ _ _ h3 _
      cases h3
    · intro s rank l _ _ _ hh _
      cases l with
      | nil =>
        exact ⟨s, [], by rw [removeChildren], List.Sublist.refl _,
          List.Sublist.refl _, by simp, by simp⟩
      | cons c rest =>
        have := hh c (List.mem_cons_self c rest)
        cases this
  | succ k ihk =>
    obtain ⟨ihP, ihQ⟩ := ihk
    have hPk1 : ∀ (s : Store) (rank : Nat → Nat) (id : Nat) (f₀ : Folder),
        (s.folders.map Folder.id).Nodup → RankOK s rank → HeightLt s id (k + 1) →
        folderFindById s id = some f₀ →
        ∃ s' tr, removeAux (k + 1) s id = (some f₀, s', tr) ∧
          s'.folders.Sublist s.folders ∧ s'.documents.Sublist s.documents ∧
          (∀ g : Folder, g ∈ s'.folders ↔ (g ∈ s.folders ∧ ¬ Desc s id g.id)) ∧
          (∀ d : Document, d ∈ s'.documents ↔
            (d ∈ s.documents ∧ ∀ x, Desc s id x → d.folder_id ≠ some x)) := by
      intro s rank id f₀ hnd hr hh hfind
      have hph : ∀ c ∈ folderFindAll s (some (some id)), HeightLt s c.id k :=
        fun c hc => heightLt_inv hh c.id
          (childRel_iff_childIds.1 (childRel_of_mem_subfolders hc))
      obtain ⟨s₁, tr₁, hQ, hsubF, hsubD, hcF, hcD⟩ :=
        ihQ s rank (folderFindAll s (some (some id))) hnd hr
          (fun c hc => (mem_folderFindAll_children.1 hc).1) hph
          (subfolders_pairwise hnd hr id)
      refine ⟨⟨s₁.folders.filter (fun f => f.id != id),
          s₁.documents.filter (fun d => d.folder_id != some id)⟩,
        tr₁ ++ [DelEvent.delDocsOfFolder id, DelEvent.delFolderRow id],
        ?_, ?_, ?_, ?_, ?_⟩
      · rw [removeAux]
        simp only [hfind, hQ]
      · exact (List.filter_sublist _).trans hsubF
      · exact (List.filter_sublist _).trans hsubD
      · intro g
        rw [List.mem_filter, hcF g, bne_iff_ne, ne_eq]
        constructor
        · rintro ⟨⟨hgs, hgsub⟩, hgid⟩
          refine ⟨hgs, fun hd => ?_⟩
          rcases desc_from_subfolders.1 hd with rfl | ⟨c, hc, hd'⟩
          · exact hgid rfl
          · exact hgsub c hc hd'
        · rintro ⟨hgs, hnd'⟩
          refine ⟨⟨hgs, fun c hc hd' => hnd' ?_⟩, fun he => hnd' ?_⟩
          · exact desc_from_subfolders.2 (Or.inr ⟨c, hc, hd'⟩)
          · exact desc_from_subfolders.2 (Or.inl he)
      · intro d
        rw [List.mem_filter, hcD d, bne_iff_ne, ne_eq]
        constructor
        · rintro ⟨⟨hds, hdsub⟩, hdid⟩
          refine ⟨hds, fun x hx hfx => ?_⟩
          rcases desc_from_subfolders.1 hx with rfl | ⟨c, hc, hd'⟩
          · exact hdid hfx
          · exact hdsub c hc x hd' hfx
        · rintro ⟨hds, hall⟩
          refine ⟨⟨hds, fun c hc x hd' hfx => ?_⟩, fun he => ?_⟩
          · exact hall x (desc_from_subfolders.2 (Or.inr ⟨c, hc, hd'⟩)) hfx
          · exact hall id (desc_from_subfolders.2 (Or.inl rfl)) he
    refine ⟨hPk1, ?_⟩
    intro s rank l
    revert s
    induction l with
    | nil =>
      intro s hnd hr hmem hh hpw
      exact ⟨s, [], by rw [removeChildren], List.Sublist.refl _,
        List.Sublist.refl _, by simp, by simp⟩
    | cons c rest ihrest =>
      intro s hnd hr hmem hh hpw
      have hc : c ∈ s.folders := hmem c (List.mem_cons_self c rest)
      have hfind : folderFindById s c.id = some c := find?_id_of_mem hnd hc
      have hheadpw : ∀ b ∈ rest, ¬ Desc s c.id b.id :=
        (List.pairwise_cons.1 hpw).1
      have hpwrest : rest.Pairwise (fun a b => ¬ Desc s a.id b.id) :=
        (List.pairwise_cons.1 hpw).2
      obtain ⟨s₁, tr₁, hP, hsF, hsD, hcF, hcD⟩ :=
        hPk1 s rank c.id c hnd hr (hh c (List.mem_cons_self c rest)) hfind
      have hsubset : ∀ f : Folder, f ∈ s₁.folders → f ∈ s.folders :=
        fun f hf => hsF.subset hf
      have hnd₁ : (s₁.folders.map Folder.id).Nodup :=
        List.Nodup.sublist (hsF.map Folder.id) hnd
      have hr₁ : RankOK s₁ rank := fun f hf p hp => hr f (hsubset f hf) p hp
      have hmem₁ : ∀ b ∈ rest, b ∈ s₁.folders := fun b hb =>
        (hcF b).2 ⟨hmem b (List.mem_cons_of_mem c hb), hheadpw b hb⟩
      have hh₁ : ∀ b ∈ rest, HeightLt s₁ b.id (k + 1) := fun b hb =>
        heightLt_antitone hsubset (hh b (List.mem_cons_of_mem c hb))
      have hpw₁ : rest.Pairwise (fun a b => ¬ Desc s₁ a.id b.id) :=
        hpwrest.imp (fun hnab hd => hnab (desc_mono hsubset hd))
      obtain ⟨s₂, tr₂, hQ2, hsF2, hsD2, hcF2, hcD2⟩ :=
        ihrest s₁ hnd₁ hr₁ hmem₁ hh₁ hpw₁
      refine ⟨s₂, tr₁ ++ tr₂, ?_, hsF2.trans hsF, hsD2.trans hsD, ?_, ?_⟩
      · rw [removeChildren]
        simp only [hP, hQ2]
      · intro g
        rw [hcF2 g, hcF g]
        simp only [List.mem_cons, forall_eq_or_imp]
        constructor
        · rintro ⟨⟨hgs, hgc⟩, h₁⟩
          refine ⟨hgs, hgc, fun b hb hd => ?_⟩
          exact h₁ b hb (desc_lift hcF hd hgc)
        · rintro ⟨hgs, hgc, hrest⟩
          exact ⟨⟨hgs, hgc⟩, fun b hb hd₁ =>
            hrest b hb (desc_mono hsubset hd₁)⟩
      · intro d
        rw [hcD2 d, hcD d]
        simp only [List.mem_cons, forall_eq_or_imp]
        constructor
        · rintro ⟨⟨hds, hdc⟩, h₁⟩
          refine ⟨hds, hdc, fun b hb x hdx hfx => ?_⟩
          by_cases hcx : Desc s c.id x
          · exact hdc x hcx hfx
          · exact h₁ b hb x (desc_lift hcF hdx hcx) hfx
        · rintro ⟨hds, hdc, hrest⟩
          exact ⟨⟨hds, hdc⟩, fun b hb x hdx hfx =>
            hrest b hb x (desc_mono hsubset hdx) hfx⟩

theorem folderRemove_not_found {s : Store} {id : Nat}
    (h : folderFindById s id = none) : folderRemove s id = (none, s, []) := by
  unfold folderRemove
  rw [removeAux]
  simp only [h]

theorem folderRemove_spec {s : Store} {id : Nat} {f₀ : Folder} (hwf : WF s)
    (hfind : folderFindById s id = some f₀) :
    ∃ s' tr, folderRemove s id = (some f₀, s', tr) ∧
      s'.folders.Sublist s.folders ∧ s'.documents.Sublist s.documents ∧
      (∀ g : Folder, g ∈ s'.folders ↔ (g ∈ s.folders ∧ ¬ Desc s id g.id)) ∧
      (∀ d : Document, d ∈ s'.documents ↔
        (d ∈ s.documents ∧ ∀ x, Desc s id x → d.folder_id ≠ some x)) :=
  (removeSpec (s.folders.length + 1)).1 s (rankOf s) id f₀ (WF_nodupF hwf)
    (WF_rankOK hwf) (heightLt_of_rankOK (WF_rankOK hwf) id) hfind

/-- Claim C1: for every folder `f` present in a well-formed store, after
`deleteFolder f.id` the folder itself, every transitive descendant folder, and
every document owned by the subtree are gone, while every folder and document
outside the subtree survives unchanged (and in its original order); the call
returns the deleted folder. -/
theorem claim_C1 (s : Store) (f : Folder) (hwf : WF s) (hf : f ∈ s.folders) :
    (deleteFolder s f.id).1 = some f ∧
    (deleteFolder s f.id).2.folders.Sublist s.folders ∧
    (deleteFolder s f.id).2.documents.Sublist s.documents ∧
    (∀ g : Folder, g ∈ (deleteFolder s f.id).2.folders ↔
      (g ∈ s.folders ∧ ¬ Desc s f.id g.id)) ∧
    (∀ d : Document, d ∈ (deleteFolder s f.id).2.documents ↔
      (d ∈ s.documents ∧ ∀ x, Desc s f.id x → d.folder_id ≠ some x)) := by
  have hfind := folderFindById_of_mem (WF_nodupF hwf) hf
  obtain ⟨s', tr, heq, h1, h2, h3, h4⟩ := folderRemove_spec hwf hfind
  unfold deleteFolder
  rw [heq]
  exact ⟨rfl, h1, h2, h3, h4⟩

/-- Claim C2: the contract of `folderRepository.remove(id)`.  (1) When no
folder with the id exists, the not-found sentinel is returned and the store is
untouched (and no delete statement runs).  (2) When the folder exists, the
call first runs the recursive removal of every subfolder (`removeChildren` on
the children, depth-first), then deletes the documents directly owned by the
folder, then the folder row itself — the trace ends with exactly those two
statements — and returns the pre-deletion snapshot of the looked-up record.
(3) A leaf folder takes the same code path with zero loop iterations. -/
theorem claim_C2 (s : Store) (id : Nat) :
    (folderFindById s id = none → folderRemove s id = (none, s, [])) ∧
    (∀ f₀, folderFindById s id = some f₀ →
      folderRemove s id =
        (some f₀,
          ⟨(removeChildren s.folders.length s
              (folderFindAll s (some (some id)))).1.folders.filter
                (fun f => f.id != id),
            (removeChildren s.folders.length s
              (folderFindAll s (some (some id)))).1.documents.filter
                (fun d => d.folder_id != some id)⟩,
          (removeChildren s.folders.length s
            (folderFindAll s (some (some id)))).2 ++
            [DelEvent.delDocsOfFolder id, DelEvent.delFolderRow id])) ∧
    (∀ f₀, folderFindById s id = some f₀ → folderFindAll s (some (some id)) = [] →
      folderRemove s id =
        (some f₀,
          ⟨s.folders.filter (fun f => f.id != id),
            s.documents.filter (fun d => d.folder_id != some id)⟩,
          [DelEvent.delDocsOfFolder id, DelEvent.delFolderRow id])) := by
  refine ⟨fun h => folderRemove_not_found h, fun f₀ hfind => ?_, fun f₀ hfind hleaf => ?_⟩
  · unfold folderRemove
    rw [removeAux]
    simp only [hfind]
  · unfold folderRemove
    rw [removeAux]
    simp only [hfind, hleaf]
    rw [show removeChildren s.folders.length s [] = (s, []) from by rw [removeChildren]]
    simp

/-! ## getPath lemmas -/

theorem getPathAux_stable {s : Store} :
    ∀ {fuel fuel' x : Nat}, fuel ≤ fuel' → (chainLen fuel s x).isSome = true →
      getPathAux fuel' s x = getPathAux fuel s x := by
  suffices h : ∀ fuel : Nat, ∀ x : Nat, ∀ {fuel' : Nat}, fuel ≤ fuel' →
      (chainLen fuel s x).isSome = true →
      getPathAux fuel' s x = getPathAux fuel s x by
    intro fuel fuel' x h1 h2
    exact h fuel x h1 h2
  intro fuel
  induction fuel with
  | zero =>
    intro x fuel' _ h2
    simp [chainLen] at h2
  | succ m ih =>
    intro x fuel' hle h2
    rcases Nat.exists_eq_add_of_le hle with ⟨j, rfl⟩
    rw [Nat.add_right_comm]
    rw [chainLen_succ] at h2
    rw [getPathAux_succ, getPathAux_succ]
    cases hfind : folderFindById s x with
    | none => simp only [hfind]
    | some f =>
      simp only [hfind] at h2 ⊢
      cases hp : f.parent_id with
      | none => simp only [hp]
      | some p =>
        simp only [hp] at h2 ⊢
        rw [Option.isSome_map'] at h2
        rw [ih p (Nat.le_add_right m j) h2]

theorem WF_rooted {s : Store} (hwf : WF s) (x : Nat) :
    (chainLen (s.folders.length + 1) s x).isSome = true :=
  chainLen_isSome_of_rankOK (WF_rankOK hwf) x

theorem getPath_not_found {s : Store} {id : Nat}
    (h : folderFindById s id = none) : getPath s id = [] := by
  unfold getPath
  rw [getPathAux_succ, h]

theorem getPath_contains_self {s : Store} {a : Nat} {fa : Folder}
    (hfind : folderFindById s a = some fa) : fa ∈ getPath s a := by
  unfold getPath
  rw [getPathAux_succ]
  simp only [hfind]
  cases hp : fa.parent_id with
  | none => simp
  | some p => simp

theorem getPath_step {s : Store} {b bp : Nat} {rb : Folder} (hwf : WF s)
    (hfind : folderFindById s b = some rb) (hp : rb.parent_id = some bp) :
    getPath s b = getPath s bp ++ [rb] := by
  have hroot := WF_rooted hwf b
  rw [chainLen_succ] at hroot
  simp only [hfind, hp, Option.isSome_map'] at hroot
  unfold getPath
  rw [getPathAux_succ]
  simp only [hfind, hp]
  rw [getPathAux_stable (Nat.le_succ _) hroot]

theorem getPath_complete {s : Store} {a : Nat} {fa : Folder} (hwf : WF s)
    (hfind : folderFindById s a = some fa) {b : Nat} (hd : Desc s a b) :
    ∃ g ∈ getPath s b, g.id = a := by
  induction hd with
  | refl =>
    refine ⟨fa, getPath_contains_self hfind, ?_⟩
    exact (folderFindById_mem hfind).2
  | tail h1 h2 ih =>
    obtain ⟨rb, hrb, hrbid, hrbpar⟩ := h2
    subst hrbid
    have hfindb : folderFindById s rb.id = some rb :=
      find?_id_of_mem (WF_nodupF hwf) hrb
    rw [getPath_step hwf hfindb hrbpar]
    obtain ⟨g, hg, hgid⟩ := ih
    exact ⟨g, List.mem_append_left _ hg, hgid⟩

/-- The spec-level description of `getPath`: on a well-formed store, the
result for an existing folder is a non-empty chain, linked by `parent_id`
(each entry is the parent of the next), starting at a root (no parent) and
ending at the requested folder, and drawn from the store. -/
theorem getPath_props {s : Store} (hwf : WF s) :
    ∀ (n id : Nat) (f : Folder), rankOf s id ≤ n →
      folderFindById s id = some f →
      getPath s id ≠ [] ∧ (getPath s id).getLast? = some f ∧
        (getPath s id).Chain' (fun a b => b.parent_id = some a.id) ∧
        (∀ g ∈ getPath s id, g ∈ s.folders) ∧
        (∀ h ∈ (getPath s id).head?, h.parent_id = none) := by
  intro n
  induction n using Nat.strong_induction_on with
  | _ n ih =>
    intro id f hrank hfind
    have hmem : f ∈ s.folders := (folderFindById_mem hfind).1
    have hfid : f.id = id := (folderFindById_mem hfind).2
    cases hp : f.parent_id with
    | none =>
      have hpath : getPath s id = [f] := by
        unfold getPath
        rw [getPathAux_succ]
        simp only [hfind, hp]
      rw [hpath]
      refine ⟨by simp, by simp, by simp, by simpa using hmem, by simpa using hp⟩
    | some p =>
      obtain ⟨g, hg, hgid⟩ := WF_parentRefs hwf f hmem p hp
      have hfindp : folderFindById s p = some g := by
        have := find?_id_of_mem (WF_nodupF hwf) hg
        rw [hgid] at this
        exact this
      have hrankp : rankOf s p < rankOf s id := by
        have := (WF_row hwf hmem hp).2
        rw [hfid] at this
        exact this
      have hlt : rankOf s p < n := Nat.lt_of_lt_of_le hrankp hrank
      obtain ⟨hne, hlast, hchain, hmems, hhead⟩ :=
        ih (rankOf s p) hlt p g (Nat.le_refl _) hfindp
      have hstep : getPath s id = getPath s p ++ [f] := by
        have := getPath_step hwf hfind hp
        exact this
      rw [hstep]
      refine ⟨by simp, by simp, ?_, ?_, ?_⟩
      · rw [List.chain'_append]
        refine ⟨hchain, List.chain'_singleton f, ?_⟩
        intro x hx y hy
        rw [hlast] at hx
        have hx' : g = x := by
          rw [Option.mem_def] at hx
          injection hx
        have hy' : f = y := by
          rw [Option.mem_def] at hy
          injection hy
        rw [← hx', ← hy', hp, hgid]
      · intro q hq
        rcases List.mem_append.1 hq with h | h
        · exact hmems q h
        · simp at h
          subst h
          exact hmem
      · intro h hh
        cases hpath : getPath s p with
        | nil => exact absurd hpath hne
        | cons a t =>
          rw [hpath] at hh
          simp only [List.cons_append, List.head?_cons, Option.mem_def,
            Option.some.injEq] at hh
          subst hh
          apply hhead
          rw [hpath]
          rfl

/-- Claim C4: `getPath(id)` (as specified — the implementation is absent from
the sources) returns, for an existing folder, the ordered ancestor chain
obtained by walking `parent_id` links: a non-empty sequence of store rows,
consecutive entries linked parent-to-child, starting at a root folder and
ending at the requested folder; for a non-existent id it returns the empty
sequence. -/
theorem claim_C4 (s : Store) (hwf : WF s) :
    (∀ id, folderFindById s id = none → getFolderPath s id = []) ∧
    (∀ id f, folderFindById s id = some f →
      getFolderPath s id ≠ [] ∧ (getFolderPath s id).getLast? = some f ∧
        (getFolderPath s id).Chain' (fun a b => b.parent_id = some a.id) ∧
        (∀ g ∈ getFolderPath s id, g ∈ s.folders) ∧
        (∀ h ∈ (getFolderPath s id).head?, h.parent_id = none)) := by
  refine ⟨fun id h => getPath_not_found h, fun id f hf => ?_⟩
  exact getPath_props hwf (rankOf s id) id f (Nat.le_refl _) hf

/-! ## Well-formedness is preserved by the folder service operations -/

theorem rankOK_canonical {s : Store} {rank : Nat → Nat}
    (hnd : (s.folders.map Folder.id).Nodup) (hr : RankOK s rank) :
    RankOK s (rankOf s) := by
  intro f hf p hp
  have hfind : folderFindById s f.id = some f := find?_id_of_mem hnd hf
  have h1 := chainLen_isSome_of_rankOK hr f.id
  rw [chainLen_succ] at h1
  simp only [hfind, hp, Option.isSome_map'] at h1
  obtain ⟨m, hm⟩ := Option.isSome_iff_exists.1 h1
  have hefid : chainLen (s.folders.length + 1) s f.id = some (m + 1) := by
    rw [chainLen_succ]
    simp only [hfind, hp, hm]
    rfl
  have hep : chainLen (s.folders.length + 1) s p = some m :=
    chainLen_mono hm (Nat.le_succ _)
  unfold rankOf
  rw [hefid, hep]
  simp

theorem WF_intro {s : Store} (h1 : (s.folders.map Folder.id).Nodup)
    (h2 : (s.documents.map Document.id).Nodup) (h3 : ParentRefs s)
    (h4 : RankOK s (rankOf s)) : WF s := by
  show wfB s = true
  unfold wfB
  simp only [Bool.and_eq_true, decide_eq_true_eq, List.all_eq_true]
  refine ⟨⟨h1, h2⟩, ?_⟩
  intro f hf
  cases hp : f.parent_id with
  | none => rfl
  | some p =>
    simp only [Bool.and_eq_true, decide_eq_true_eq, List.any_eq_true, beq_iff_eq]
    obtain ⟨g, hg, hgid⟩ := h3 f hf p hp
    exact ⟨⟨g, hg, hgid⟩, h4 f hf p hp⟩

theorem WF_of_rank {s : Store} (h1 : (s.folders.map Folder.id).Nodup)
    (h2 : (s.documents.map Document.id).Nodup) (h3 : ParentRefs s)
    (rank : Nat → Nat) (h4 : RankOK s rank) : WF s :=
  WF_intro h1 h2 h3 (rankOK_canonical h1 h4)

theorem desc_last_edge {s : Store} (hnd : (s.folders.map Folder.id).Nodup)
    {id : Nat} {f : Folder} (hf : f ∈ s.folders) {q : Nat}
    (hq : f.parent_id = some q) (hne : f.id ≠ id) (hd : Desc s id f.id) :
    Desc s id q := by
  rcases Relation.ReflTransGen.cases_tail hd with heq | ⟨x, hdx, hx⟩
  · exact absurd heq hne
  · obtain ⟨g', hg', hg'id, hg'par⟩ := hx
    have hgf : g' = f := records_unique hnd hg' hf (by rw [hg'id])
    subst hgf
    rw [hq] at hg'par
    have hxq : q = x := by injection hg'par
    rw [hxq]
    exact hdx

theorem WF_deleteFolder {s : Store} (hwf : WF s) (id : Nat) :
    WF (deleteFolder s id).2 := by
  cases hfind : folderFindById s id with
  | none =>
    unfold deleteFolder
    rw [folderRemove_not_found hfind]
    exact hwf
  | some f₀ =>
    obtain ⟨s', tr, heq, hsF, hsD, hcF, hcD⟩ := folderRemove_spec hwf hfind
    have h2 : (deleteFolder s id).2 = s' := by
      unfold deleteFolder
      rw [heq]
    rw [h2]
    refine WF_of_rank (List.Nodup.sublist (hsF.map Folder.id) (WF_nodupF hwf))
      (List.Nodup.sublist (hsD.map Document.id) (WF_nodupD hwf)) ?_ (rankOf s)
      (fun f hf p hp => WF_rankOK hwf f (hsF.subset hf) p hp)
    intro g hg p hp
    have hgs := (hcF g).1 hg
    obtain ⟨q, hq, hqid⟩ := WF_parentRefs hwf g hgs.1 p hp
    refine ⟨q, (hcF q).2 ⟨hq, fun hdq => ?_⟩, hqid⟩
    apply hgs.2
    have hdp : Desc s id p := hqid ▸ hdq
    exact Relation.ReflTransGen.tail hdp ⟨g, hgs.1, rfl, hp⟩

theorem WF_createFolder {s : Store} (hwf : WF s) (d : CreateFolderDTO)
    (now : Nat) : WF (createFolder s d now).2 := by
  unfold createFolder
  by_cases hmiss : folderMissing s (some d.parent_id) = true
  · rw [if_pos hmiss]
    exact hwf
  · rw [if_neg hmiss]
    unfold folderRepoCreate
    dsimp only
    have hfresh : ∀ i ∈ s.folders.map Folder.id,
        i < nextId (s.folders.map Folder.id) :=
      fun i hi => mem_lt_nextId _ i hi
    have hparent : ∀ pid, d.parent_id = some pid →
        ∃ q ∈ s.folders, q.id = pid := by
      intro pid hpid
      rw [Bool.not_eq_true] at hmiss
      rw [hpid] at hmiss
      simp only [folderMissing] at hmiss
      cases hfq : folderFindById s pid with
      | none =>
        rw [hfq] at hmiss
        simp at hmiss
      | some q =>
        exact ⟨q, (folderFindById_mem hfq).1, (folderFindById_mem hfq).2⟩
    refine WF_of_rank ?_ (show ((s.documents.map Document.id)).Nodup from
        WF_nodupD hwf) ?_
      (fun x => if x = nextId (s.folders.map Folder.id) then
        (match d.parent_id with
          | some pid => rankOf s pid + 1
          | none => 0)
        else rankOf s x) ?_
    · rw [List.map_append]
      rw [List.nodup_append]
      refine ⟨WF_nodupF hwf, by simp, ?_⟩
      intro a ha hb
      simp at hb
      subst hb
      exact absurd rfl (Nat.ne_of_lt (hfresh _ ha))
    · intro f hf p hp
      rcases List.mem_append.1 hf with hold | hnew
      · obtain ⟨q, hq, hqid⟩ := WF_parentRefs hwf f hold p hp
        exact ⟨q, List.mem_append_left _ hq, hqid⟩
      · simp at hnew
        subst hnew
        simp at hp
        obtain ⟨q, hq, hqid⟩ := hparent p hp
        exact ⟨q, List.mem_append_left _ hq, hqid⟩
    · intro f hf p hp
      dsimp only
      rcases List.mem_append.1 hf with hold | hnew
      · have hfne : f.id ≠ nextId (s.folders.map Folder.id) :=
          Nat.ne_of_lt (hfresh f.id (List.mem_map_of_mem Folder.id hold))
        obtain ⟨q, hq, hqid⟩ := WF_parentRefs hwf f hold p hp
        have hpne : p ≠ nextId (s.folders.map Folder.id) := by
          rw [← hqid]
          exact Nat.ne_of_lt (hfresh q.id (List.mem_map_of_mem Folder.id hq))
        rw [if_neg hfne, if_neg hpne]
        exact WF_rankOK hwf f hold p hp
      · simp at hnew
        subst hnew
        simp at hp
        obtain ⟨q, hq, hqid⟩ := hparent p hp
        have hpne : p ≠ nextId (s.folders.map Folder.id) := by
          rw [← hqid]
          exact Nat.ne_of_lt (hfresh q.id (List.mem_map_of_mem Folder.id hq))
        rw [if_neg hpne, if_pos rfl, hp]
        exact Nat.lt_succ_self _

theorem update_ids (s : Store) (id : Nat) (p : FolderPatch) :
    ((s.folders.map (fun f => if f.id == id then applyFolderPatch p f else f)).map
        Folder.id) = s.folders.map Folder.id := by
  rw [List.map_map]
  apply List.map_congr_left
  intro f _
  by_cases h : (f.id == id) = true
  · simp [Function.comp, h, applyFolderPatch]
  · simp [Function.comp, h]

theorem exists_id_of_ids_eq {l l' : List Folder}
    (h : l'.map Folder.id = l.map Folder.id) {x : Nat}
    (hx : ∃ g ∈ l, g.id = x) : ∃ g' ∈ l', g'.id = x := by
  obtain ⟨g, hg, hgid⟩ := hx
  have hmm : x ∈ l'.map Folder.id := by
    rw [h]
    exact hgid ▸ List.mem_map_of_mem _ hg
  obtain ⟨g', hg', hg'id⟩ := List.mem_map.1 hmm
  exact ⟨g', hg', hg'id⟩

theorem WF_updateFolder {s : Store} (hwf : WF s) (id : Nat) (p : FolderPatch) :
    WF (updateFolder s id p).2 := by
  classical
  unfold updateFolder
  split_ifs with h1 h2 h3
  · exact hwf
  · exact hwf
  · exact hwf
  · unfold folderRepoUpdate
    dsimp only
    have hids : ((s.folders.map
        (fun f => if f.id == id then applyFolderPatch p f else f)).map Folder.id) =
        s.folders.map Folder.id := update_ids s id p
    have hft : ∃ ft, folderFindById s id = some ft := by
      cases hf : folderFindById s id with
      | none =>
        rw [hf] at h1
        simp at h1
      | some ft => exact ⟨ft, rfl⟩
    obtain ⟨ft, hfind⟩ := hft
    have hcan := WF_rankOK hwf
    have hrefs : ParentRefs ⟨s.folders.map
        (fun f => if f.id == id then applyFolderPatch p f else f), s.documents⟩ := by
      intro g' hg' q hq
      obtain ⟨f, hf, hfe⟩ := List.mem_map.1 hg'
      by_cases hfid : (f.id == id) = true
      · rw [if_pos hfid] at hfe
        subst hfe
        cases hpp : p.parent_id with
        | none =>
          have hq' : f.parent_id = some q := by
            have : (applyFolderPatch p f).parent_id = f.parent_id := by
              simp [applyFolderPatch, hpp]
            rw [this] at hq
            exact hq
          exact exists_id_of_ids_eq hids (WF_parentRefs hwf f hf q hq')
        | some inner =>
          cases inner with
          | none =>
            have : (applyFolderPatch p f).parent_id = none := by
              simp [applyFolderPatch, hpp]
            rw [this] at hq
            cases hq
          | some pid =>
            have : (applyFolderPatch p f).parent_id = some pid := by
              simp [applyFolderPatch, hpp]
            rw [this] at hq
            have hqpid : pid = q := by injection hq
            subst hqpid
            rw [hpp] at h2
            simp only [folderMissing] at h2
            cases hfq : folderFindById s pid with
            | none =>
              rw [hfq] at h2
              simp at h2
            | some fp =>
              exact exists_id_of_ids_eq hids
                ⟨fp, (folderFindById_mem hfq).1, (folderFindById_mem hfq).2⟩
      · rw [if_neg hfid] at hfe
        subst hfe
        exact exists_id_of_ids_eq hids (WF_parentRefs hwf f hf q hq)
    cases hpp : p.parent_id with
    | none =>
      refine WF_of_rank (by rw [hids]; exact WF_nodupF hwf)
          (show (s.documents.map Document.id).Nodup from WF_nodupD hwf)
        hrefs (rankOf s) ?_
      intro g' hg' q hq
      obtain ⟨f, hf, hfe⟩ := List.mem_map.1 hg'
      by_cases hfid : (f.id == id) = true
      · rw [if_pos hfid] at hfe
        subst hfe
        have hpar : (applyFolderPatch p f).parent_id = f.parent_id := by
          simp [applyFolderPatch, hpp]
        rw [hpar] at hq
        have hid' : (applyFolderPatch p f).id = f.id := by
          simp [applyFolderPatch]
        rw [hid']
        exact hcan f hf q hq
      · rw [if_neg hfid] at hfe
        subst hfe
        exact hcan f hf q hq
    | some inner =>
      cases inner with
      | none =>
        refine WF_of_rank (by rw [hids]; exact WF_nodupF hwf)
          (show (s.documents.map Document.id).Nodup from WF_nodupD hwf)
          hrefs (rankOf s) ?_
        intro g' hg' q hq
        obtain ⟨f, hf, hfe⟩ := List.mem_map.1 hg'
        by_cases hfid : (f.id == id) = true
        · rw [if_pos hfid] at hfe
          subst hfe
          have hpar : (applyFolderPatch p f).parent_id = none := by
            simp [applyFolderPatch, hpp]
          rw [hpar] at hq
          cases hq
        · rw [if_neg hfid] at hfe
          subst hfe
          exact hcan f hf q hq
      | some pid =>
        have hnodesc : ¬ Desc s id pid := by
          intro hd
          obtain ⟨g, hg, hgid⟩ := getPath_complete hwf hfind hd
          apply h3
          rw [hpp]
          simp only [cycleGuard, List.any_eq_true]
          exact ⟨g, hg, by simp [hgid]⟩
        refine WF_of_rank (by rw [hids]; exact WF_nodupF hwf)
          (show (s.documents.map Document.id).Nodup from WF_nodupD hwf)
          hrefs
          (fun x => if Desc s id x then
            rankOf s pid + 1 + (rankOf s x - rankOf s id) else rankOf s x) ?_
        intro g' hg' q hq
        dsimp only
        obtain ⟨f, hf, hfe⟩ := List.mem_map.1 hg'
        by_cases hfid : (f.id == id) = true
        · rw [if_pos hfid] at hfe
          subst hfe
          have hpar : (applyFolderPatch p f).parent_id = some pid := by
            simp [applyFolderPatch, hpp]
          rw [hpar] at hq
          have hqpid : pid = q := by injection hq
          subst hqpid
          have hid' : (applyFolderPatch p f).id = f.id := by
            simp [applyFolderPatch]
          rw [hid']
          have hfeq : f.id = id := by simpa using hfid
          rw [hfeq]
          have hrefl : Desc s id id := Relation.ReflTransGen.refl
          rw [if_neg hnodesc, if_pos hrefl]
          omega
        · rw [if_neg hfid] at hfe
          subst hfe
          have hne : f.id ≠ id := by simpa using hfid
          by_cases hdf : Desc s id f.id
          · have hdq : Desc s id q := desc_last_edge (WF_nodupF hwf) hf hq hne hdf
            have h1q : rankOf s id ≤ rankOf s q := rank_le_of_desc hcan hdq
            have h2q : rankOf s q < rankOf s f.id := hcan f hf q hq
            rw [if_pos hdq, if_pos hdf]
            omega
          · have hnq : ¬ Desc s id q := fun hdq =>
              hdf (Relation.ReflTransGen.tail hdq ⟨f, hf, rfl, hq⟩)
            rw [if_neg hnq, if_neg hdf]
            exact hcan f hf q hq

/-- Claim C3: reparenting a folder onto itself or onto any of its descendants
is rejected with the store left unchanged, and — together with the other
folder-service operations (`createFolder`, any `updateFolder`, `deleteFolder`)
— well-formedness of the store, in particular acyclicity of the parent/child
relation, is preserved. -/
theorem claim_C3 (s : Store) (hwf : WF s) :
    (∀ (fF : Folder) (D : Nat) (p : FolderPatch), fF ∈ s.folders →
      Desc s fF.id D → p.parent_id = some (some D) →
      updateFolder s fF.id p = (none, s)) ∧
    (∀ d now, WF (createFolder s d now).2) ∧
    (∀ id p, WF (updateFolder s id p).2) ∧
    (∀ id, WF (deleteFolder s id).2) := by
  refine ⟨?_, fun d now => WF_createFolder hwf d now,
    fun id p => WF_updateFolder hwf id p, fun id => WF_deleteFolder hwf id⟩
  intro fF D p hF hdesc hpp
  have hfind : folderFindById s fF.id = some fF :=
    folderFindById_of_mem (WF_nodupF hwf) hF
  have hD : ∃ g ∈ s.folders, g.id = D := by
    rcases Relation.ReflTransGen.cases_tail hdesc with heq | ⟨x, hdx, hx⟩
    · exact ⟨fF, hF, heq.symm⟩
    · obtain ⟨g, hg, hgid, _⟩ := hx
      exact ⟨g, hg, hgid⟩
  obtain ⟨gD, hgD, hgDid⟩ := hD
  have hfindD : folderFindById s D = some gD := by
    have := find?_id_of_mem (WF_nodupF hwf) hgD
    rw [hgDid] at this
    exact this
  have hg1 : (folderFindById s fF.id).isNone = false := by
    rw [hfind]
    rfl
  have hg2 : folderMissing s p.parent_id = false := by
    rw [hpp]
    simp only [folderMissing]
    rw [hfindD]
    rfl
  have hg3 : cycleGuard s fF.id p.parent_id = true := by
    rw [hpp]
    simp only [cycleGuard, List.any_eq_true]
    obtain ⟨g, hg, hgid⟩ := getPath_complete hwf hfind hdesc
    exact ⟨g, hg, by simp [hgid]⟩
  unfold updateFolder
  rw [hg1, hg2, hg3]
  simp

/-! ## Concrete witnesses -/

theorem claim_C1_witness :
    (deleteFolder demoStore 1).1 = some ⟨1, "Finance", none, "alice", 10⟩ :=
  (claim_C1 demoStore ⟨1, "Finance", none, "alice", 10⟩ (by decide) (by decide)).1

theorem claim_C2_witness : folderRemove demoStore 99 = (none, demoStore, []) :=
  (claim_C2 demoStore 99).1 (by decide)

theorem claim_C3_witness :
    updateFolder demoStore 1 ⟨none, some (some 2), none⟩ = (none, demoStore) :=
  (claim_C3 demoStore (by decide)).1 ⟨1, "Finance", none, "alice", 10⟩ 2
    ⟨none, some (some 2), none⟩ (by decide)
    (Relation.ReflTransGen.single
      ⟨⟨2, "Reports", some 1, "alice", 11⟩, by decide, rfl, rfl⟩)
    rfl

theorem claim_C4_witness : getFolderPath demoStore 99 = [] :=
  (claim_C4 demoStore (by decide)).1 99 (by decide)

theorem claim_C5_witness :
    createFile demoStore ⟨"bad", "pdf", -5, none, "u"⟩ 9 = (none, demoStore) :=
  (claim_C5_amended demoStore).2.1 ⟨"bad", "pdf", -5, none, "u"⟩ 9 (by decide)

theorem claim_C6_witness :
    (listFiles demoStore
        ⟨none, 2, 5, SortKey.created_at, SortOrder.desc, none⟩).pagination.total =
      (selectFolders demoStore none none).length +
        (selectDocuments demoStore none none).length :=
  (claim_C6 demoStore ⟨none, some 2, some 5, none, none, none⟩
    ⟨none, 2, 5, SortKey.created_at, SortOrder.desc, none⟩ (by decide)).1

theorem claim_C8_witness : moveFiles demoStore [3] (some 99) = ([], demoStore) :=
  (claim_C8 demoStore [3]).1 99 (by decide)

end DMS
